import Mathlib

/-!
Shallow embedding of `nailgun/orchestrator/task_based_deployment.py`
(the deployment task graph serializer) and proofs about its behaviour.

Python dicts that act as open records are embedded as Lean structures with
`Option` fields: `none` models an absent key, `some v` a present key.
Python dict objects used as maps (insertion ordered, as the specification
tightens the iteration order) are embedded as association lists.
External collaborators (the plugin hook serializers and the task-type
registry from `tasks_serializer.py`, which are not part of the sources)
are parameters gathered in an `Env` structure.
-/

namespace TaskBasedDeployment

/-- A node identifier; `none` is the sentinel "null" node used for
cluster-wide synchronization points. -/
abbrev NodeId := Option String

/-- A node of the inventory: `{id, roles}`. -/
structure Node where
  id : String
  roles : List String
  deriving DecidableEq, Repr

/-- A role selector: either a single token (a role name or the special
tokens "all" / "self") or a list of role names. -/
inductive Selector where
  | str (s : String)
  | list (l : List String)
  deriving DecidableEq, Repr

/-- Node resolve policy for cross dependencies. -/
inductive NodePolicy where
  | all
  | any
  deriving DecidableEq, Repr

/-- A materialized relation entry `{name, node_id}`. -/
structure Rel where
  name : String
  node_id : NodeId
  deriving DecidableEq, Repr

/-- A structured cross-dependency entry `{name, role?, policy?}`. -/
structure CrossDep where
  name : String
  role : Option Selector := none
  policy : Option NodePolicy := none
  deriving DecidableEq, Repr

/-- A serialized (astute) task record, before placement.  Fields model the
dict keys touched by the orchestrator code; `none` = key absent. -/
structure ATask where
  id : String := ""
  type : String := ""
  uids : Option (List NodeId) := none
  requires : Option (List String) := none
  required_for : Option (List String) := none
  cross_depends : Option (List CrossDep) := none
  cross_depended_by : Option (List CrossDep) := none
  requires_ex : Option (List Rel) := none
  required_for_ex : Option (List Rel) := none
  deriving DecidableEq, Repr

/-- A catalog (library) task record. -/
structure CTask where
  id : String
  type : String := ""
  version : Option String := none
  role : Option Selector := none
  groups : Option Selector := none
  tasks : Option (List String) := none
  requires : Option (List String) := none
  required_for : Option (List String) := none
  cross_depends : Option (List CrossDep) := none
  cross_depended_by : Option (List CrossDep) := none
  skipped : Option Bool := none
  deriving DecidableEq, Repr

/-- An output record after dependency materialization: `requires` and
`required_for` hold concrete `{name, node_id}` entries. -/
structure FTask where
  id : String
  type : String
  requires : List Rel
  required_for : List Rel
  deriving DecidableEq, Repr

/-- Errors raised by the serializer.  `taskBaseDeploymentNotAllowed` is
`errors.TaskBaseDeploymentNotAllowed` (the spec's TaskVersionUnsupported);
`invalidData` is `errors.InvalidData('Task %s cannot be resolved', sub_task_id)`
(the spec's UnknownGroupMember), carrying the offending sub-task id. -/
inductive DeployError where
  | taskBaseDeploymentNotAllowed
  | invalidData (task_id : String)
  deriving DecidableEq, Repr

/-! ### Association lists (Python dict, insertion ordered) -/

/-- Lookup of a key (`d.get(k)` / `d[k]`). -/
def alGet [DecidableEq α] : List (α × β) → α → Option β
  | [], _ => none
  | (k, v) :: rest, a => if k = a then some v else alGet rest a

/-- Dict assignment `d[k] = v`: replace the value in place if the key is
present, otherwise append at the end (insertion order). -/
def alSet [DecidableEq α] : List (α × β) → α → β → List (α × β)
  | [], a, b => [(a, b)]
  | (k, v) :: rest, a, b =>
      if k = a then (k, b) :: rest else (k, v) :: alSet rest a b

/-! ### Version handling

`StrictVersion` comparison from `distutils`, and the
`consts.TASK_CROSS_DEPENDENCY` threshold, are not part of the sources.
Modelled from the spec: "Use lexicographic dotted-numeric comparison"
(spec 4.7); the threshold is the cross-dependency capability version,
`"2.0.0"` (the first version accepted in the spec's examples). -/

/-- Split a character list at the dots. -/
def verSplit : List Char → List (List Char)
  | [] => [[]]
  | c :: cs =>
      match verSplit cs with
      | [] => [[]]
      | r :: rs => if c = '.' then [] :: r :: rs else (c :: r) :: rs

/-- The numeric value of a digit string (0 for a malformed component). -/
def digitsVal (cs : List Char) : Option Nat :=
  if cs ≠ [] && cs.all Char.isDigit then
    some (cs.foldl (fun n c => n * 10 + (c.toNat - 48)) 0)
  else none

/-- Modelled from the spec: parse a dotted-numeric version string. -/
def parseVersion (s : String) : List Nat :=
  (verSplit s.data).map (fun cs => (digitsVal cs).getD 0)

/-- Modelled from the spec: lexicographic comparison of dotted-numeric
versions. -/
def versionLt : List Nat → List Nat → Bool
  | [], [] => false
  | [], _ :: _ => true
  | _ :: _, [] => false
  | a :: as, b :: bs => a < b || (a = b && versionLt as bs)

/-- Modelled from the spec: `consts.TASK_CROSS_DEPENDENCY`, the minimum
version with cross-dependency support. -/
def TASK_CROSS_DEPENDENCY : String := "2.0.0"

/-! ### TaskProcessor (chain builder) -/

/-- The dependency attributes `TaskProcessor.task_attributes_to_copy`
ranges over. -/
inductive DepAttr where
  | requires
  | cross_depends
  | required_for
  | cross_depended_by
  deriving DecidableEq, Repr

/-- `TaskProcessor.task_attributes_to_copy`. -/
def task_attributes_to_copy : List DepAttr :=
  [.requires, .cross_depends, .required_for, .cross_depended_by]

/-- `serialized[attr] = origin[attr]` guarded by `except KeyError: pass`:
copy one attribute from the origin task when the origin has it. -/
def copyAttr (serialized : ATask) (origin : CTask) : DepAttr → ATask
  | .requires =>
      match origin.requires with
      | some v => { serialized with requires := some v }
      | none => serialized
  | .cross_depends =>
      match origin.cross_depends with
      | some v => { serialized with cross_depends := some v }
      | none => serialized
  | .required_for =>
      match origin.required_for with
      | some v => { serialized with required_for := some v }
      | none => serialized
  | .cross_depended_by =>
      match origin.cross_depended_by with
      | some v => { serialized with cross_depended_by := some v }
      | none => serialized

/-- `TaskProcessor` state: the mapping between ids of generated tasks and
origin task ids. -/
structure TaskProcessor where
  origin_task_ids : List (String × String) := []
  deriving DecidableEq, Repr

namespace TaskProcessor

/-- `TaskProcessor.min_supported_task_version`. -/
def min_supported_task_version : List Nat := parseVersion TASK_CROSS_DEPENDENCY

/-- `TaskProcessor.ensure_task_based_deploy_allowed`. -/
def ensure_task_based_deploy_allowed (task : CTask) : Except DeployError Unit :=
  if task.type = "stage" then
    .ok ()
  else if versionLt (parseVersion (task.version.getD "1.0.0"))
      min_supported_task_version then
    .error .taskBaseDeploymentNotAllowed
  else
    .ok ()

/-- `TaskProcessor.get_origin`. -/
def get_origin (tp : TaskProcessor) (task_id : String) : String :=
  (alGet tp.origin_task_ids task_id).getD task_id

/-- `TaskProcessor.get_task_id`. -/
def get_task_id (chain_name : String) (num : Nat) : String :=
  chain_name ++ "#" ++ toString num

/-- `TaskProcessor.get_first_task_id`. -/
def get_first_task_id (chain_name : String) : String :=
  chain_name ++ "_start"

/-- `TaskProcessor.get_last_task_id`. -/
def get_last_task_id (chain_name : String) : String :=
  chain_name ++ "_end"

/-- Record transformation part of `TaskProcessor._convert_task`
(the `serialized` dict is patched in place in Python). -/
def convert_record (serialized : ATask) (origin : CTask)
    (task_id : Option String) (attrs : Option (List DepAttr)) : ATask :=
  let attrs := attrs.getD task_attributes_to_copy
  let tid := task_id.getD origin.id
  attrs.foldl (fun s a => copyAttr s origin a) { serialized with id := tid }

/-- Lineage recording part of `TaskProcessor._convert_task`
(`self.origin_task_ids[task_id] = origin['id']`). -/
def record_origin (tp : TaskProcessor) (task_id origin_id : String) :
    TaskProcessor :=
  { tp with origin_task_ids := alSet tp.origin_task_ids task_id origin_id }

/-- `TaskProcessor._convert_task`: patch the record and record lineage. -/
def convert_task (tp : TaskProcessor) (serialized : ATask) (origin : CTask)
    (task_id : Option String) (attrs : Option (List DepAttr)) :
    ATask × TaskProcessor :=
  let tid := task_id.getD origin.id
  (convert_record serialized origin task_id attrs, record_origin tp tid origin.id)

/-- `TaskProcessor._convert_first_task` (record part). -/
def convert_first_record (serialized : ATask) (origin : CTask) : ATask :=
  convert_record serialized origin (some (get_first_task_id origin.id))
    (some [.requires, .cross_depends])

/-- `TaskProcessor._convert_to_chain_task` (record part). -/
def convert_chain_record (serialized : ATask) (origin : CTask) (num : Nat) :
    ATask :=
  convert_record serialized origin (some (get_task_id origin.id num)) (some [])

/-- `TaskProcessor._convert_last_task` (record part). -/
def convert_last_record (serialized : ATask) (origin : CTask) : ATask :=
  convert_record serialized origin (some (get_last_task_id origin.id))
    (some [.required_for, .cross_depended_by])

/-- `TaskProcessor._link_tasks`: wire `current` to `previous`.  Mutates
only `current` (returned). -/
def link_tasks (previous current : ATask) : ATask :=
  if previous.uids = current.uids then
    { current with requires := some (current.requires.getD [] ++ [previous.id]) }
  else
    { current with
        requires_ex := some (current.requires_ex.getD [] ++
          (previous.uids.getD []).map (fun node_id => ⟨previous.id, node_id⟩)) }

/-- The chain loop of `TaskProcessor.process_tasks` after the first record
was yielded: `prev` is the previously yielded (converted) record, `n` the
chain counter, the list argument the records still to be consumed from the
iterator plus the look-ahead frame (nonempty: its last element becomes the
`_end` record). -/
def process_chain (tp : TaskProcessor) (origin : CTask) (prev : ATask)
    (n : Nat) : List ATask → List ATask × TaskProcessor
  | [] => ([], tp)
  | [last] =>
      ([link_tasks prev (convert_last_record last origin)],
       record_origin tp (get_last_task_id origin.id) origin.id)
  | cur :: next :: rest =>
      let c' := link_tasks prev (convert_chain_record cur origin n)
      let (ys, tp'') := process_chain
        (record_origin tp (get_task_id origin.id n) origin.id)
        origin c' (n + 1) (next :: rest)
      (c' :: ys, tp'')

/-- `TaskProcessor.process_tasks`: convert the lazy sequence of serialized
records into a well-linked chain.  Returns the yielded records together
with the updated processor, or the error raised by the version gate. -/
def process_tasks (tp : TaskProcessor) (origin_task : CTask)
    (serialized_tasks : List ATask) :
    Except DeployError (List ATask × TaskProcessor) :=
  match serialized_tasks with
  | [] => .ok ([], tp)
  | [t] =>
      match ensure_task_based_deploy_allowed origin_task with
      | .error e => .error e
      | .ok _ =>
          .ok ([convert_record t origin_task none none],
               record_origin tp origin_task.id origin_task.id)
  | t0 :: t1 :: rest =>
      match ensure_task_based_deploy_allowed origin_task with
      | .error e => .error e
      | .ok _ =>
          .ok (let first := convert_first_record t0 origin_task
               let (ys, tp2) := process_chain
                 (record_origin tp (get_first_task_id origin_task.id)
                   origin_task.id)
                 origin_task first 1 (t1 :: rest)
               (first :: ys, tp2))

end TaskProcessor

/-! ### Role resolver and name matcher

`RoleResolver`, `NullResolver` and `NameMatchingPolicy` live in
`nailgun/utils/role_resolver.py`, which is not part of the sources. -/

/-- A role resolver: maps a selector and a policy to a node-id set. -/
abbrev Resolver := Selector → NodePolicy → List NodeId

/-- Modelled from the spec: `RoleResolver.resolve` (spec 4.1).  The
wildcard token "all" matches every node; otherwise a node matches when one
of its roles is selected.  Policy `all` takes the union, policy `any` the
first matching node in stable node order. -/
def roleResolve (nodes : List Node) : Resolver := fun sel policy =>
  let matched :=
    match sel with
    | .str s => if s = "all" then nodes else nodes.filter (fun n => n.roles.contains s)
    | .list l => nodes.filter (fun n => n.roles.any (fun r => l.contains r))
  let ids := matched.map (fun n => some n.id)
  match policy with
  | .all => ids
  | .any => ids.take 1

/-- Modelled from the spec: `NullResolver` (spec 4.1) returns exactly the
node ids it was constructed with, ignoring selector and policy. -/
def NullResolver (node_ids : List NodeId) : Resolver := fun _ _ => node_ids

/-- Modelled from the spec: glob matching with the `*` wildcard
(spec 4.2); characters other than `*` match literally. -/
def globMatch : List Char → List Char → Bool
  | [], [] => true
  | [], _ :: _ => false
  | p :: ps, [] => p = '*' && globMatch ps []
  | p :: ps, c :: cs =>
      if p = '*' then globMatch ps (c :: cs) || globMatch (p :: ps) cs
      else p = c && globMatch ps cs
  termination_by p s => (p.length, s.length)

/-- Modelled from the spec: `NameMatchingPolicy.create(name).match`
(spec 4.2): a purely alphanumeric-with-underscore reference compares by
equality, any other reference is treated as a pattern. -/
def nameMatch (name : String) (candidate : String) : Bool :=
  if name.data.all (fun c => c.isAlphanum || c = '_') then candidate = name
  else globMatch name.data candidate.data

/-! ### Serializer registry and environment -/

/-- `consts.PLUGIN_PRE_DEPLOYMENT_HOOK`. -/
def PLUGIN_PRE_DEPLOYMENT_HOOK : String := "plugin_pre_deployment_hook"

/-- `consts.PLUGIN_POST_DEPLOYMENT_HOOK`. -/
def PLUGIN_POST_DEPLOYMENT_HOOK : String := "plugin_post_deployment_hook"

/-- External collaborators: the task-type registry of
`tasks_serializer.py` and the plugin hook serializers, which are not part
of the sources.  `ext_serialize` is the record stream emitted by the
serializer the registry selects for a task of a non-built-in type, given
the role resolver it was constructed with; `ext_should_execute` its
`should_execute`; `plugin_pre` / `plugin_post` the concatenated begin/end
records of the plugin hook serializers. -/
structure Env where
  ext_should_execute : CTask → Bool
  ext_serialize : CTask → Resolver → List ATask
  plugin_pre : List ATask
  plugin_post : List ATask

/-- `NoopSerializer.get_uids`: `task.get('groups', task.get('role'))`
resolved through the serializer's role resolver; `[None]` when the task
has no selector. -/
def noop_uids (task : CTask) (resolver : Resolver) : List NodeId :=
  match task.groups.orElse (fun _ => task.role) with
  | none => [none]
  | some sel => resolver sel .all

/-- Modelled from the spec: `make_noop_task` from `tasks_templates.py`
(not part of the sources) builds the single record the Noop Serializer
emits, carrying the resolved `uids` (spec 4.3); its type marks the record
as skipped for the executor, matching the class docstring "tasks that
should be skipped by astute". -/
def make_noop_task (uids : List NodeId) (task : CTask) : ATask :=
  { id := task.id, type := "skipped", uids := some uids }

/-- `DeployTaskSerializer.get_stage_serializer` dispatch, `serialize`
side: stage/skipped map to the Noop Serializer, the two plugin hook types
to the plugin serializers, anything else to the external registry. -/
def serializer_serialize (env : Env) (task : CTask) (resolver : Resolver) :
    List ATask :=
  if task.type = "skipped" || task.type = "stage" then
    [make_noop_task (noop_uids task resolver) task]
  else if task.type = PLUGIN_PRE_DEPLOYMENT_HOOK then env.plugin_pre
  else if task.type = PLUGIN_POST_DEPLOYMENT_HOOK then env.plugin_post
  else env.ext_serialize task resolver

/-- `should_execute` of the dispatched serializer: the Noop and plugin
serializers always return `True`. -/
def serializer_should_execute (env : Env) (task : CTask) : Bool :=
  if task.type = "skipped" || task.type = "stage" then true
  else if task.type = PLUGIN_PRE_DEPLOYMENT_HOOK then true
  else if task.type = PLUGIN_POST_DEPLOYMENT_HOOK then true
  else env.ext_should_execute task

/-- `add_plugin_deployment_hooks`: the two synthetic hook tasks appended
to the catalog stream. -/
def deployment_hooks : List CTask :=
  [{ id := PLUGIN_PRE_DEPLOYMENT_HOOK,
     version := some TASK_CROSS_DEPENDENCY,
     type := PLUGIN_PRE_DEPLOYMENT_HOOK,
     requires := some ["pre_deployment_end"],
     required_for := some ["deploy_start"] },
   { id := PLUGIN_POST_DEPLOYMENT_HOOK,
     version := some TASK_CROSS_DEPENDENCY,
     type := PLUGIN_POST_DEPLOYMENT_HOOK,
     requires := some ["post_deployment_end"] }]

/-! ### TasksSerializer -/

/-- One per-node bucket of the placement map: task id → placed record. -/
abbrev Bucket := List (String × ATask)

/-- The placement map `tasks_per_node : node_id → (task_id → record)`. -/
abbrev PlacementMap := List (NodeId × Bucket)

/-- The record placed under `(node_id, task_id)`, if any. -/
def placed_get (pm : PlacementMap) (node_id : NodeId) (task_id : String) :
    Option ATask :=
  alGet ((alGet pm node_id).getD []) task_id

/-- `TasksSerializer` state: nodes (backing `self.role_resolver`), the
optional task-id allow list (backing `self.task_filter`), the task
processor and the placement map. -/
structure TasksSerializer where
  nodes : List Node
  task_ids : Option (List String) := none
  task_processor : TaskProcessor := {}
  tasks_per_node : PlacementMap := []
  deriving Repr

namespace TasksSerializer

/-- `TasksSerializer.make_task_filter`: identity-true when no ids are
given (`None` or an empty collection), otherwise membership. -/
def make_task_filter (task_ids : Option (List String)) : String → Bool :=
  match task_ids with
  | none => fun _ => true
  | some [] => fun _ => true
  | some l => fun task_id => l.contains task_id

/-- The instance's `self.task_filter`. -/
def task_filter (s : TasksSerializer) (task_id : String) : Bool :=
  make_task_filter s.task_ids task_id

/-- The instance's `self.role_resolver`. -/
def role_resolver (s : TasksSerializer) : Resolver :=
  roleResolve s.nodes

/-- `TasksSerializer.need_update_task`: keep, place or overwrite. -/
def need_update_task (tasks : Bucket) (task : ATask) : Bool :=
  match alGet tasks task.id with
  | none => true
  | some existed_task =>
      if existed_task.type = task.type then false
      else task.type ≠ "skipped"

/-- The record as stored by the placement loop of
`TasksSerializer.process_task`: the type overwritten with `skipped` when
the task is skipped, and the popped `uids` key removed. -/
def stored_record (skipped : Bool) (t : ATask) : ATask :=
  if skipped then { t with type := "skipped", uids := none }
  else { t with uids := none }

/-- Store a record in one node's bucket subject to `need_update_task`
(`node_tasks[astute_task['id']] = copy.deepcopy(astute_task)`). -/
def place_on_node (pm : PlacementMap) (t1 : ATask) (node_id : NodeId) :
    PlacementMap :=
  if need_update_task ((alGet pm node_id).getD []) t1 then
    alSet pm node_id (alSet ((alGet pm node_id).getD []) t1.id t1)
  else pm

/-- The placement loop body of `TasksSerializer.process_task` for one
astute task: overwrite the type when skipped, pop `uids` and store a copy
in every target node's bucket subject to `need_update_task`. -/
def place_astute_task (pm : PlacementMap) (skipped : Bool) (t : ATask) :
    PlacementMap :=
  (t.uids.getD []).foldl
    (fun pm node_id => place_on_node pm (stored_record skipped t) node_id) pm

/-- The view of the catalog task after `task.pop('skipped', False)`.
Because `or` short-circuits, the pop only happens when `skip` is false. -/
def popped_view (task : CTask) (skip : Bool) : CTask :=
  if skip then task else { task with skipped := none }

/-- The `skipped` flag computed by `TasksSerializer.process_task`:
`skip or task.pop('skipped', False) or not task_serializer.should_execute()`. -/
def effective_skip (env : Env) (task : CTask) (skip : Bool) : Bool :=
  skip || task.skipped.getD false ||
    !(serializer_should_execute env (popped_view task skip))

/-- `TasksSerializer.process_task`.  Returns the updated state together
with the catalog task as mutated by the pop (the Python code mutates the
shared dict in place). -/
def process_task (env : Env) (s : TasksSerializer) (task : CTask)
    (resolver : Resolver) (skip : Bool) :
    Except DeployError (TasksSerializer × CTask) :=
  match TaskProcessor.process_tasks s.task_processor (popped_view task skip)
      (serializer_serialize env (popped_view task skip) resolver) with
  | .error e => .error e
  | .ok (astute_tasks, tp') =>
      .ok ({ s with
               task_processor := tp'
               tasks_per_node := astute_tasks.foldl
                 (fun pm t =>
                   place_astute_task pm (effective_skip env task skip) t)
                 s.tasks_per_node },
           popped_view task skip)

/-- The inner loop of `TasksSerializer.expand_task_groups` over one
group's member ids (`skipped` and `node_ids` already computed for the
group). -/
def expand_group_members (env : Env) (s : TasksSerializer) (skipped : Bool)
    (node_ids : List NodeId) :
    List String → List (String × CTask) →
    Except DeployError (TasksSerializer × List (String × CTask))
  | [], task_mapping => .ok (s, task_mapping)
  | sub_task_id :: rest, task_mapping =>
      match alGet task_mapping sub_task_id with
      | none => .error (.invalidData sub_task_id)
      | some sub_task =>
          match process_task env s sub_task (NullResolver node_ids)
              (skipped && !s.task_filter sub_task_id) with
          | .error e => .error e
          | .ok (s', sub') =>
              expand_group_members env s' skipped node_ids rest
                (alSet task_mapping sub_task_id sub')

/-- `TasksSerializer.expand_task_groups`: process each member of each
group with a Null Resolver pre-filled with the group's resolved node set;
a member missing from the mapping is fatal.  Threads the mapping because
`process_task` mutates the shared member task. -/
def expand_task_groups (env : Env) (s : TasksSerializer) :
    List CTask → List (String × CTask) →
    Except DeployError (TasksSerializer × List (String × CTask))
  | [], task_mapping => .ok (s, task_mapping)
  | task :: rest, task_mapping =>
      match expand_group_members env s (!s.task_filter task.id)
          (s.role_resolver (task.role.getD (.list [])) .all)
          (task.tasks.getD []) task_mapping with
      | .error e => .error e
      | .ok (s', task_mapping') => expand_task_groups env s' rest task_mapping'

/-- The partition loop of `TasksSerializer.resolve_nodes`: buffer group
tasks, process every other task immediately with the top-level resolver
and `skip = not task_filter(id)`, collecting the id → task mapping. -/
def resolve_nodes_loop (env : Env) (s : TasksSerializer) :
    List CTask → List (String × CTask) → List CTask →
    Except DeployError (TasksSerializer × List (String × CTask) × List CTask)
  | [], task_mapping, groups => .ok (s, task_mapping, groups)
  | task :: rest, task_mapping, groups =>
      if task.type = "group" then
        resolve_nodes_loop env s rest task_mapping (groups ++ [task])
      else
        match process_task env s task
            (fun sel policy => s.role_resolver sel policy)
            (!s.task_filter task.id) with
        | .error e => .error e
        | .ok (s', task') =>
            resolve_nodes_loop env s' rest (alSet task_mapping task.id task')
              groups

/-- `TasksSerializer.resolve_nodes`. -/
def resolve_nodes (env : Env) (s : TasksSerializer) (tasks : List CTask) :
    Except DeployError TasksSerializer :=
  match resolve_nodes_loop env s tasks [] [] with
  | .error e => .error e
  | .ok (s', task_mapping, groups) =>
      match expand_task_groups env s' groups task_mapping with
      | .error e => .error e
      | .ok (s'', _) =>
          -- make sure that null node is present (setdefault)
          .ok (match alGet s''.tasks_per_node none with
               | some _ => s''
               | none =>
                   { s'' with
                       tasks_per_node := s''.tasks_per_node ++ [(none, [])] })

/-- The inner loop of `TasksSerializer.resolve_relation` over the keys of
one node's bucket, threading the `applied_tasks` set. -/
def resolve_relation_keys (tp : TaskProcessor) (name : String)
    (node_id : NodeId) (is_required_for : Bool) (mp : String → Bool) :
    List String → List String → List Rel
  | [], _ => []
  | task_name :: rest, applied_tasks =>
      if task_name = name then
        -- the simple case: exact match to the searched name
        ⟨task_name, node_id⟩ ::
          resolve_relation_keys tp name node_id is_required_for mp rest
            applied_tasks
      else
        let original_task := tp.get_origin task_name
        if original_task ∈ applied_tasks || !mp original_task then
          resolve_relation_keys tp name node_id is_required_for mp rest
            applied_tasks
        else
          -- `original_task is not task_name`: rename a chain member to the
          -- `_start` / `_end` endpoint, keep a plain record's own name
          let out_name :=
            if original_task = task_name then task_name
            else if is_required_for then
              TaskProcessor.get_first_task_id original_task
            else TaskProcessor.get_last_task_id original_task
          ⟨out_name, node_id⟩ ::
            resolve_relation_keys tp name node_id is_required_for mp rest
              (original_task :: applied_tasks)

/-- The keys of one node's bucket (Python iterates the dict's keys). -/
def bucket_keys (s : TasksSerializer) (node_id : NodeId) : List String :=
  ((alGet s.tasks_per_node node_id).getD []).map Prod.fst

/-- `TasksSerializer.resolve_relation`: search the given nodes' buckets
for the reference `name`, with a fresh `applied_tasks` set per node. -/
def resolve_relation (s : TasksSerializer) (name : String)
    (node_ids : List NodeId) (is_required_for : Bool) : List Rel :=
  node_ids.flatMap fun node_id =>
    resolve_relation_keys s.task_processor name node_id is_required_for
      (nameMatch name) (bucket_keys s node_id) []

/-- `TasksSerializer.expand_dependencies`: same-node references are
searched on the node itself and in the null sync-point bucket. -/
def expand_dependencies (s : TasksSerializer) (node_id : NodeId)
    (dependencies : Option (List String)) (is_required_for : Bool) :
    List Rel :=
  (dependencies.getD []).flatMap fun name =>
    resolve_relation s name [node_id, none] is_required_for

/-- `TasksSerializer.expand_cross_dependencies`. -/
def expand_cross_dependencies (s : TasksSerializer) (node_id : NodeId)
    (dependencies : Option (List CrossDep)) (is_required_for : Bool) :
    List Rel :=
  (dependencies.getD []).flatMap fun dep =>
    let roles := dep.role.getD (.str "all")
    let node_ids :=
      if roles = .str "self" then [node_id]
      else s.role_resolver roles (dep.policy.getD .all)
    resolve_relation s dep.name node_ids is_required_for

/-- The per-record body of `TasksSerializer.resolve_dependencies`:
materialize the four dependency fields of a placed record into the final
`requires` / `required_for` lists and drop the transient keys. -/
def materialize_record (s : TasksSerializer) (node_id : NodeId) (t : ATask) :
    FTask :=
  { id := t.id
    type := t.type
    requires :=
      expand_dependencies s node_id t.requires false ++
      expand_cross_dependencies s node_id t.cross_depends false ++
      t.requires_ex.getD []
    required_for :=
      expand_dependencies s node_id t.required_for true ++
      expand_cross_dependencies s node_id t.cross_depended_by true ++
      t.required_for_ex.getD [] }

/-- `TasksSerializer.resolve_dependencies` combined with the final
projection of `TasksSerializer.serialize`: every bucket's records with
materialized dependencies, in placement order.  (The rewrite of one
record only reads bucket keys and lineage, so the in-place Python loop is
order independent.) -/
def output (s : TasksSerializer) : List (NodeId × List FTask) :=
  s.tasks_per_node.map fun b =>
    (b.1, b.2.map fun kt => materialize_record s b.1 kt.2)

/-- The state reached by `TasksSerializer.serialize` after
`resolve_nodes(add_plugin_deployment_hooks(tasks), nodes)`. -/
def run (env : Env) (nodes : List Node) (tasks : List CTask)
    (task_ids : Option (List String)) : Except DeployError TasksSerializer :=
  resolve_nodes env
    { nodes := nodes, task_ids := task_ids }
    (tasks ++ deployment_hooks)

/-- `TasksSerializer.serialize`: the classmethod entry point. -/
def serialize (env : Env) (nodes : List Node) (tasks : List CTask)
    (task_ids : Option (List String) := none) :
    Except DeployError (List (NodeId × List FTask)) :=
  (run env nodes tasks task_ids).map output

end TasksSerializer

/-! ### Concrete scenarios used to instantiate the theorems -/

/-- An environment whose external serializers emit nothing. -/
def envEmpty : Env :=
  { ext_should_execute := fun _ => true
    ext_serialize := fun _ _ => []
    plugin_pre := []
    plugin_post := [] }

/-- A version-capable catalog task without dependencies. -/
def c1_origin : CTask := { id := "t1", type := "puppet", version := some "2.0.0" }

/-- Three serialized records on one node: a chain of N = 3. -/
def c1_ser : List ATask :=
  [{ type := "puppet", uids := some [some "n1"] },
   { type := "puppet", uids := some [some "n1"] },
   { type := "puppet", uids := some [some "n1"] }]

/-- The chain produced for `c1_origin` from `c1_ser`. -/
def c1_out : List ATask × TaskProcessor :=
  ((TaskProcessor.process_tasks {} c1_origin c1_ser).toOption).getD ([], {})

/-- A catalog task carrying its own `skipped: true` flag. -/
def c10_task : CTask :=
  { id := "t1", type := "puppet", version := some "2.0.0",
    skipped := some true }

/-- A serializer state holding a placed chain `t1_start` / `t1_end` and a
plain record `t2` on node `n1`, with the matching lineage. -/
def c3_state : TasksSerializer :=
  { nodes := []
    task_processor :=
      { origin_task_ids :=
          [("t1_start", "t1"), ("t1_end", "t1"), ("t2", "t2")] }
    tasks_per_node :=
      [(some "n1",
        [("t1_start", { id := "t1_start", type := "puppet" }),
         ("t1_end", { id := "t1_end", type := "puppet" }),
         ("t2", { id := "t2", type := "puppet" })])] }

/-- Environment for the filter/skip-override scenario: `t1` serializes to
one record on node `n1`. -/
def c5_env : Env :=
  { ext_should_execute := fun _ => true
    ext_serialize := fun t _ =>
      if t.id = "t1" then [{ type := "puppet", uids := some [some "n1"] }]
      else []
    plugin_pre := []
    plugin_post := [] }

/-- Catalog: a direct task `t1` and a group `g` referencing it. -/
def c5_tasks : List CTask :=
  [{ id := "t1", type := "puppet", version := some "2.0.0" },
   { id := "g", type := "group", tasks := some ["t1"] }]

/-- Serializer over one node with the allow-list holding only `t1`: the
group `g` is excluded by the task filter, `t1` is not. -/
def c5_s0 : TasksSerializer :=
  { nodes := [{ id := "n1", roles := ["controller"] }]
    task_ids := some ["t1"] }

/-- The state after the partition pass of `resolve_nodes`. -/
def c5_loop : TasksSerializer × List (String × CTask) × List CTask :=
  (TasksSerializer.resolve_nodes_loop c5_env c5_s0 c5_tasks [] []).toOption.getD
    (c5_s0, [], [])

/-- The state after the full `resolve_nodes` run. -/
def c5_final : TasksSerializer :=
  (TasksSerializer.resolve_nodes c5_env c5_s0 c5_tasks).toOption.getD c5_s0

/-- A stage-typed member task whose own role selector targets compute
nodes. -/
def c6_sub : CTask := { id := "t1", type := "stage", role := some (.str "compute") }

/-- A group targeting controller nodes that references `t1`. -/
def c6_group : CTask :=
  { id := "g", type := "group", role := some (.str "controller"),
    tasks := some ["t1"] }

/-- Serializer over one controller node and one compute node. -/
def c6_s0 : TasksSerializer :=
  { nodes := [{ id := "n1", roles := ["controller"] },
              { id := "n2", roles := ["compute"] }] }

/-- The result of processing the member through the group's Null
Resolver. -/
def c6_out : TasksSerializer × CTask :=
  (TasksSerializer.process_task envEmpty c6_s0 c6_sub
    (NullResolver (c6_s0.role_resolver (c6_group.role.getD (.list []))
      .all))
    ((!c6_s0.task_filter c6_group.id) && !c6_s0.task_filter "t1")
    ).toOption.getD (c6_s0, c6_sub)

/-- Serializer-emitted records carry none of the chain-internal
`requires_ex` / `required_for_ex` keys (those are produced only by the
chain builder's wiring). -/
def Env.no_ex_records (env : Env) : Prop :=
  (∀ (t : CTask) (r : Resolver), ∀ rec ∈ env.ext_serialize t r,
    rec.requires_ex = none ∧ rec.required_for_ex = none) ∧
  (∀ rec ∈ env.plugin_pre,
    rec.requires_ex = none ∧ rec.required_for_ex = none) ∧
  (∀ rec ∈ env.plugin_post,
    rec.requires_ex = none ∧ rec.required_for_ex = none)

/-- The task ids present in one node's bucket of a placement map. -/
def keys_of (pm : PlacementMap) (u : NodeId) : List String :=
  ((alGet pm u).getD []).map Prod.fst

/-- Every bucket entry is stored under its record's id. -/
def pm_keys_match (pm : PlacementMap) : Prop :=
  ∀ u b, alGet pm u = some b → ∀ kt ∈ b, kt.1 = kt.2.id

/-- The relation entry points at a record placed on its node. -/
def rel_placed (pm : PlacementMap) (r : Rel) : Prop :=
  r.name ∈ keys_of pm r.node_id

/-- Every placed record's `requires_ex` / `required_for_ex` entries point
at placed records. -/
def pm_ex_ok (pm : PlacementMap) : Prop :=
  ∀ u b, alGet pm u = some b → ∀ kt ∈ b,
    (∀ r ∈ kt.2.requires_ex.getD [], rel_placed pm r) ∧
    (∀ r ∈ kt.2.required_for_ex.getD [], rel_placed pm r)

/-- The chain-wiring shape of a record sequence: no record carries
`required_for_ex`, and a record's `requires_ex`, when present, holds
exactly one entry per uid of its predecessor, naming the predecessor. -/
def chain_ex_linked : Option ATask → List ATask → Prop
  | _, [] => True
  | prev, t :: rest =>
      t.required_for_ex = none ∧
      (t.requires_ex = none ∨ ∃ p, prev = some p ∧
        t.requires_ex = some ((p.uids.getD []).map
          (fun u => (⟨p.id, u⟩ : Rel)))) ∧
      chain_ex_linked (some t) rest

/-- Environment for the dangling chain-endpoint scenario: `t1` expands to
a chain whose links live on different nodes, `t2` references `t1`. -/
def c4_env : Env :=
  { ext_should_execute := fun _ => true
    ext_serialize := fun t _ =>
      if t.id = "t1" then
        [{ type := "puppet", uids := some [some "n1"] },
         { type := "puppet", uids := some [some "n2"] }]
      else if t.id = "t2" then
        [{ type := "puppet", uids := some [some "n1"] }]
      else []
    plugin_pre := []
    plugin_post := [] }

/-- Two nodes for the dangling-endpoint scenario. -/
def c4_nodes : List Node :=
  [{ id := "n1", roles := ["controller"] }, { id := "n2", roles := ["compute"] }]

/-- Catalog: the cross-node chain task `t1` and the dependent `t2`. -/
def c4_tasks : List CTask :=
  [{ id := "t1", type := "puppet", version := some "2.0.0" },
   { id := "t2", type := "puppet", version := some "2.0.0",
     requires := some ["t1"] }]

/-- The serialized output of the dangling-endpoint scenario. -/
def c4_out : List (NodeId × List FTask) :=
  (TasksSerializer.serialize c4_env c4_nodes c4_tasks none).toOption.getD []

/-- The serializer state after the dangling-endpoint scenario run. -/
def c4_run : TasksSerializer :=
  (TasksSerializer.run c4_env c4_nodes c4_tasks none).toOption.getD
    { nodes := [] }

/-! ### Association list lemmas -/

theorem alGet_alSet_self [DecidableEq α] (l : List (α × β)) (k : α) (v : β) :
    alGet (alSet l k v) k = some v := by
  induction l with
  | nil => simp [alGet, alSet]
  | cons p rest ih =>
      obtain ⟨a, b⟩ := p
      by_cases h : a = k <;> simp [alGet, alSet, h, ih]

theorem alGet_alSet_ne [DecidableEq α] (l : List (α × β)) (k k' : α) (v : β)
    (h : k ≠ k') : alGet (alSet l k v) k' = alGet l k' := by
  induction l with
  | nil => simp [alGet, alSet, h]
  | cons p rest ih =>
      obtain ⟨a, b⟩ := p
      by_cases ha : a = k
      · subst ha
        simp [alGet, alSet, h]
      · simp only [alSet, if_neg ha]
        by_cases ha' : a = k' <;> simp [alGet, ha', ih]

theorem alSet_keys_mem [DecidableEq α] (l : List (α × β)) (k : α) (v : β)
    (a : α) (h : a ∈ l.map Prod.fst) : a ∈ (alSet l k v).map Prod.fst := by
  induction l with
  | nil => simp at h
  | cons p rest ih =>
      obtain ⟨x, b⟩ := p
      by_cases hx : x = k
      · simpa [alSet, hx] using h
      · simp only [alSet, if_neg hx, List.map_cons, List.mem_cons] at h ⊢
        rcases h with h | h
        · exact Or.inl h
        · exact Or.inr (ih h)

theorem alSet_key_mem [DecidableEq α] (l : List (α × β)) (k : α) (v : β) :
    k ∈ (alSet l k v).map Prod.fst := by
  induction l with
  | nil => simp [alSet]
  | cons p rest ih =>
      obtain ⟨x, b⟩ := p
      by_cases hx : x = k <;> simp [alSet, hx, ih]

theorem alSet_mem [DecidableEq α] (l : List (α × β)) (k : α) (v : β) :
    ∀ p ∈ alSet l k v, p = (k, v) ∨ p ∈ l := by
  induction l with
  | nil => intro p hp; simp [alSet] at hp; simp [hp]
  | cons q rest ih =>
      obtain ⟨x, b⟩ := q
      intro p hp
      by_cases hx : x = k
      · subst hx
        unfold alSet at hp
        rw [if_pos rfl] at hp
        rcases List.mem_cons.mp hp with hp1 | hp1
        · exact Or.inl (by simp [hp1])
        · exact Or.inr (List.mem_cons_of_mem _ hp1)
      · simp only [alSet, if_neg hx, List.mem_cons] at hp
        rcases hp with hp | hp
        · exact Or.inr (by simp [hp])
        · rcases ih p hp with h | h
          · exact Or.inl h
          · exact Or.inr (List.mem_cons_of_mem _ h)

theorem alGet_mem [DecidableEq α] (l : List (α × β)) (k : α) (v : β)
    (h : alGet l k = some v) : (k, v) ∈ l := by
  induction l with
  | nil => simp [alGet] at h
  | cons p rest ih =>
      obtain ⟨a, b⟩ := p
      by_cases ha : a = k
      · subst ha
        simp [alGet] at h
        simp [h]
      · simp only [alGet, if_neg ha] at h
        exact List.mem_cons_of_mem _ (ih h)

theorem alGet_isSome_of_key_mem [DecidableEq α] (l : List (α × β)) (k : α)
    (h : k ∈ l.map Prod.fst) : (alGet l k).isSome := by
  induction l with
  | nil => simp at h
  | cons p rest ih =>
      obtain ⟨a, b⟩ := p
      by_cases ha : a = k
      · simp [alGet, ha]
      · simp only [List.map_cons, List.mem_cons] at h
        rcases h with h | h
        · exact absurd h.symm ha
        · simpa [alGet, ha] using ih h

theorem key_mem_of_alGet_isSome [DecidableEq α] (l : List (α × β)) (k : α)
    (h : (alGet l k).isSome) : k ∈ l.map Prod.fst := by
  induction l with
  | nil => simp [alGet] at h
  | cons p rest ih =>
      obtain ⟨a, b⟩ := p
      by_cases ha : a = k
      · simp [ha]
      · simp only [alGet, if_neg ha] at h
        exact List.mem_cons_of_mem _ (ih h)

/-! ### Field computation lemmas for the chain builder -/

namespace TaskProcessor

theorem copyAttr_id (s : ATask) (o : CTask) (a : DepAttr) :
    (copyAttr s o a).id = s.id := by
  cases a <;> simp only [copyAttr] <;> split <;> rfl

theorem copyAttr_uids (s : ATask) (o : CTask) (a : DepAttr) :
    (copyAttr s o a).uids = s.uids := by
  cases a <;> simp only [copyAttr] <;> split <;> rfl

theorem copyAttr_requires_ex (s : ATask) (o : CTask) (a : DepAttr) :
    (copyAttr s o a).requires_ex = s.requires_ex := by
  cases a <;> simp only [copyAttr] <;> split <;> rfl

theorem copyAttr_required_for_ex (s : ATask) (o : CTask) (a : DepAttr) :
    (copyAttr s o a).required_for_ex = s.required_for_ex := by
  cases a <;> simp only [copyAttr] <;> split <;> rfl

theorem copyAttr_type (s : ATask) (o : CTask) (a : DepAttr) :
    (copyAttr s o a).type = s.type := by
  cases a <;> simp only [copyAttr] <;> split <;> rfl

theorem foldl_copyAttr_id (o : CTask) :
    ∀ (l : List DepAttr) (s : ATask),
      (l.foldl (fun s a => copyAttr s o a) s).id = s.id
  | [], _ => rfl
  | a :: rest, s => by
      rw [List.foldl_cons, foldl_copyAttr_id o rest, copyAttr_id]

theorem foldl_copyAttr_uids (o : CTask) :
    ∀ (l : List DepAttr) (s : ATask),
      (l.foldl (fun s a => copyAttr s o a) s).uids = s.uids
  | [], _ => rfl
  | a :: rest, s => by
      rw [List.foldl_cons, foldl_copyAttr_uids o rest, copyAttr_uids]

theorem foldl_copyAttr_requires_ex (o : CTask) :
    ∀ (l : List DepAttr) (s : ATask),
      (l.foldl (fun s a => copyAttr s o a) s).requires_ex = s.requires_ex
  | [], _ => rfl
  | a :: rest, s => by
      rw [List.foldl_cons, foldl_copyAttr_requires_ex o rest,
        copyAttr_requires_ex]

theorem foldl_copyAttr_required_for_ex (o : CTask) :
    ∀ (l : List DepAttr) (s : ATask),
      (l.foldl (fun s a => copyAttr s o a) s).required_for_ex =
        s.required_for_ex
  | [], _ => rfl
  | a :: rest, s => by
      rw [List.foldl_cons, foldl_copyAttr_required_for_ex o rest,
        copyAttr_required_for_ex]

theorem foldl_copyAttr_type (o : CTask) :
    ∀ (l : List DepAttr) (s : ATask),
      (l.foldl (fun s a => copyAttr s o a) s).type = s.type
  | [], _ => rfl
  | a :: rest, s => by
      rw [List.foldl_cons, foldl_copyAttr_type o rest, copyAttr_type]

theorem convert_record_id (s : ATask) (o : CTask) (tid : Option String)
    (attrs : Option (List DepAttr)) :
    (convert_record s o tid attrs).id = tid.getD o.id := by
  unfold convert_record
  rw [foldl_copyAttr_id]

theorem convert_record_uids (s : ATask) (o : CTask) (tid : Option String)
    (attrs : Option (List DepAttr)) :
    (convert_record s o tid attrs).uids = s.uids := by
  unfold convert_record
  rw [foldl_copyAttr_uids]

theorem convert_record_requires_ex (s : ATask) (o : CTask)
    (tid : Option String) (attrs : Option (List DepAttr)) :
    (convert_record s o tid attrs).requires_ex = s.requires_ex := by
  unfold convert_record
  rw [foldl_copyAttr_requires_ex]

theorem convert_record_required_for_ex (s : ATask) (o : CTask)
    (tid : Option String) (attrs : Option (List DepAttr)) :
    (convert_record s o tid attrs).required_for_ex = s.required_for_ex := by
  unfold convert_record
  rw [foldl_copyAttr_required_for_ex]

theorem convert_record_type (s : ATask) (o : CTask) (tid : Option String)
    (attrs : Option (List DepAttr)) :
    (convert_record s o tid attrs).type = s.type := by
  unfold convert_record
  rw [foldl_copyAttr_type]

/-- The single-record conversion (`attrs = None`, all four attributes). -/
theorem convert_record_single (s : ATask) (o : CTask) :
    convert_record s o none none =
      { s with
          id := o.id
          requires := o.requires.or s.requires
          cross_depends := o.cross_depends.or s.cross_depends
          required_for := o.required_for.or s.required_for
          cross_depended_by := o.cross_depended_by.or s.cross_depended_by } := by
  cases hr : o.requires <;> cases hc : o.cross_depends <;>
    cases hf : o.required_for <;> cases hb : o.cross_depended_by <;>
    simp [convert_record, task_attributes_to_copy, copyAttr, hr, hc, hf, hb,
      Option.or]

/-- The first-in-chain conversion copies only `requires` and
`cross-depends` from the origin. -/
theorem convert_first_record_eq (s : ATask) (o : CTask) :
    convert_first_record s o =
      { s with
          id := get_first_task_id o.id
          requires := o.requires.or s.requires
          cross_depends := o.cross_depends.or s.cross_depends } := by
  cases hr : o.requires <;> cases hc : o.cross_depends <;>
    simp [convert_first_record, convert_record, copyAttr, hr, hc, Option.or,
      get_first_task_id]

/-- The interior conversion copies no dependency attributes. -/
theorem convert_chain_record_eq (s : ATask) (o : CTask) (num : Nat) :
    convert_chain_record s o num = { s with id := get_task_id o.id num } := rfl

/-- The last-in-chain conversion copies only `required_for` and
`cross-depended-by` from the origin. -/
theorem convert_last_record_eq (s : ATask) (o : CTask) :
    convert_last_record s o =
      { s with
          id := get_last_task_id o.id
          required_for := o.required_for.or s.required_for
          cross_depended_by := o.cross_depended_by.or s.cross_depended_by } := by
  cases hf : o.required_for <;> cases hb : o.cross_depended_by <;>
    simp [convert_last_record, convert_record, copyAttr, hf, hb, Option.or,
      get_last_task_id]

theorem link_tasks_id (p c : ATask) : (link_tasks p c).id = c.id := by
  unfold link_tasks
  split <;> rfl

theorem link_tasks_uids (p c : ATask) : (link_tasks p c).uids = c.uids := by
  unfold link_tasks
  split <;> rfl

theorem link_tasks_type (p c : ATask) : (link_tasks p c).type = c.type := by
  unfold link_tasks
  split <;> rfl

theorem link_tasks_required_for (p c : ATask) :
    (link_tasks p c).required_for = c.required_for := by
  unfold link_tasks
  split <;> rfl

theorem link_tasks_required_for_ex (p c : ATask) :
    (link_tasks p c).required_for_ex = c.required_for_ex := by
  unfold link_tasks
  split <;> rfl

theorem link_tasks_cross_depends (p c : ATask) :
    (link_tasks p c).cross_depends = c.cross_depends := by
  unfold link_tasks
  split <;> rfl

theorem link_tasks_cross_depended_by (p c : ATask) :
    (link_tasks p c).cross_depended_by = c.cross_depended_by := by
  unfold link_tasks
  split <;> rfl

theorem link_tasks_of_eq_uids (p c : ATask) (h : p.uids = c.uids) :
    link_tasks p c =
      { c with requires := some (c.requires.getD [] ++ [p.id]) } := by
  unfold link_tasks
  rw [if_pos h]

theorem link_tasks_of_ne_uids (p c : ATask) (h : p.uids ≠ c.uids) :
    link_tasks p c =
      { c with
          requires_ex := some (c.requires_ex.getD [] ++
            (p.uids.getD []).map (fun node_id => ⟨p.id, node_id⟩)) } := by
  unfold link_tasks
  rw [if_neg h]

theorem link_tasks_requires_eq (p c : ATask) (h : p.uids = c.uids) :
    (link_tasks p c).requires = some (c.requires.getD [] ++ [p.id]) := by
  rw [link_tasks_of_eq_uids _ _ h]

theorem link_tasks_requires_ex_eq (p c : ATask) (h : p.uids = c.uids) :
    (link_tasks p c).requires_ex = c.requires_ex := by
  rw [link_tasks_of_eq_uids _ _ h]

theorem link_tasks_requires_ne (p c : ATask) (h : p.uids ≠ c.uids) :
    (link_tasks p c).requires = c.requires := by
  rw [link_tasks_of_ne_uids _ _ h]

theorem link_tasks_requires_ex_ne (p c : ATask) (h : p.uids ≠ c.uids) :
    (link_tasks p c).requires_ex = some (c.requires_ex.getD [] ++
      (p.uids.getD []).map (fun node_id => ⟨p.id, node_id⟩)) := by
  rw [link_tasks_of_ne_uids _ _ h]

theorem convert_chain_record_uids (s : ATask) (o : CTask) (num : Nat) :
    (convert_chain_record s o num).uids = s.uids := by
  rw [convert_chain_record_eq]

theorem convert_chain_record_requires (s : ATask) (o : CTask) (num : Nat) :
    (convert_chain_record s o num).requires = s.requires := by
  rw [convert_chain_record_eq]

theorem convert_chain_record_required_for (s : ATask) (o : CTask) (num : Nat) :
    (convert_chain_record s o num).required_for = s.required_for := by
  rw [convert_chain_record_eq]

theorem convert_chain_record_cross_depends (s : ATask) (o : CTask)
    (num : Nat) :
    (convert_chain_record s o num).cross_depends = s.cross_depends := by
  rw [convert_chain_record_eq]

theorem convert_chain_record_cross_depended_by (s : ATask) (o : CTask)
    (num : Nat) :
    (convert_chain_record s o num).cross_depended_by = s.cross_depended_by := by
  rw [convert_chain_record_eq]

theorem convert_chain_record_requires_ex (s : ATask) (o : CTask) (num : Nat) :
    (convert_chain_record s o num).requires_ex = s.requires_ex := by
  rw [convert_chain_record_eq]

theorem convert_chain_record_required_for_ex (s : ATask) (o : CTask)
    (num : Nat) :
    (convert_chain_record s o num).required_for_ex = s.required_for_ex := by
  rw [convert_chain_record_eq]

theorem convert_last_record_uids (s : ATask) (o : CTask) :
    (convert_last_record s o).uids = s.uids := by
  rw [convert_last_record_eq]

theorem convert_last_record_requires (s : ATask) (o : CTask) :
    (convert_last_record s o).requires = s.requires := by
  rw [convert_last_record_eq]

theorem convert_last_record_required_for (s : ATask) (o : CTask) :
    (convert_last_record s o).required_for =
      o.required_for.or s.required_for := by
  rw [convert_last_record_eq]

theorem convert_last_record_cross_depends (s : ATask) (o : CTask) :
    (convert_last_record s o).cross_depends = s.cross_depends := by
  rw [convert_last_record_eq]

theorem convert_last_record_cross_depended_by (s : ATask) (o : CTask) :
    (convert_last_record s o).cross_depended_by =
      o.cross_depended_by.or s.cross_depended_by := by
  rw [convert_last_record_eq]

theorem convert_last_record_requires_ex (s : ATask) (o : CTask) :
    (convert_last_record s o).requires_ex = s.requires_ex := by
  rw [convert_last_record_eq]

theorem convert_last_record_required_for_ex (s : ATask) (o : CTask) :
    (convert_last_record s o).required_for_ex = s.required_for_ex := by
  rw [convert_last_record_eq]

/-! ### Structure of the chain loop output -/

theorem process_chain_ids (origin : CTask) :
    ∀ (ins : List ATask) (tp : TaskProcessor) (prev : ATask) (n : Nat),
      ins ≠ [] →
      (process_chain tp origin prev n ins).1.map ATask.id =
        (List.range (ins.length - 1)).map
          (fun k => get_task_id origin.id (n + k)) ++
          [get_last_task_id origin.id]
  | [], _, _, _, h => absurd rfl h
  | [last], tp, prev, n, _ => by
      simp [process_chain, link_tasks_id, convert_last_record,
        convert_record_id]
  | cur :: next :: rest, tp, prev, n, _ => by
      have ih := process_chain_ids origin (next :: rest)
        (record_origin tp (get_task_id origin.id n) origin.id)
        (link_tasks prev (convert_chain_record cur origin n)) (n + 1)
        (by simp)
      simp only [process_chain, List.map_cons]
      rw [ih, link_tasks_id]
      simp only [convert_chain_record, convert_record_id, List.length_cons,
        Option.getD_some, Nat.add_sub_cancel]
      rw [List.range_succ_eq_map]
      simp only [List.map_cons, List.map_map, List.cons_append]
      congr 1
      congr 1
      apply List.map_congr_left
      intro k _
      simp only [Function.comp_apply]
      congr 1
      omega

/-- Pointwise structure of the chain loop output: the record at index `j`
is the converted input at index `j` (interior numbering starting at `n`,
the last record converted as the `_end` record), linked to the previous
output record (`prev` for index `0`). -/
theorem process_chain_get (origin : CTask) :
    ∀ (ins : List ATask) (tp : TaskProcessor) (prev : ATask) (n : Nat),
      ins ≠ [] →
      (process_chain tp origin prev n ins).1.length = ins.length ∧
      ∀ j, j < ins.length →
        ∃ y r, (process_chain tp origin prev n ins).1.get? j = some y ∧
          ins.get? j = some r ∧
          y = link_tasks
            (if j = 0 then prev
             else ((process_chain tp origin prev n ins).1.get? (j - 1)).getD
               prev)
            (if j = ins.length - 1 then convert_last_record r origin
             else convert_chain_record r origin (n + j))
  | [], _, _, _, h => absurd rfl h
  | [last], tp, prev, n, _ => by
      refine ⟨rfl, ?_⟩
      intro j hj
      match j with
      | 0 =>
          refine ⟨link_tasks prev (convert_last_record last origin), last,
            ?_, ?_, ?_⟩
          · rfl
          · rfl
          · simp
      | j' + 1 => exact absurd hj (by simp)
  | cur :: next :: rest, tp, prev, n, _ => by
      obtain ⟨ihlen, ih⟩ := process_chain_get origin (next :: rest)
        (record_origin tp (get_task_id origin.id n) origin.id)
        (link_tasks prev (convert_chain_record cur origin n)) (n + 1)
        (by simp)
      have hunfold :
          (process_chain tp origin prev n (cur :: next :: rest)).1 =
            link_tasks prev (convert_chain_record cur origin n) ::
              (process_chain
                (record_origin tp (get_task_id origin.id n) origin.id) origin
                (link_tasks prev (convert_chain_record cur origin n)) (n + 1)
                (next :: rest)).1 := rfl
      rw [hunfold]
      constructor
      · simp [ihlen]
      · intro j hj
        match j with
        | 0 =>
            refine ⟨_, cur, rfl, rfl, ?_⟩
            have hne : ¬((0 : Nat) = (cur :: next :: rest).length - 1) := by
              simp
            rw [if_pos rfl, if_neg hne, Nat.add_zero]
        | j' + 1 =>
            have hj' : j' < (next :: rest).length :=
              Nat.lt_of_succ_lt_succ (by simpa using hj)
            obtain ⟨y, r, hy, hr, hlink⟩ := ih j' hj'
            refine ⟨y, r, by simpa using hy, by simpa using hr, ?_⟩
            rw [hlink]
            congr 1
            · rw [if_neg (Nat.succ_ne_zero j')]
              have h1 : j' + 1 - 1 = j' := rfl
              rw [h1]
              match j' with
              | 0 =>
                  rw [if_pos rfl]
                  rfl
              | k + 1 =>
                  rw [if_neg (Nat.succ_ne_zero k), List.get?_cons_succ]
                  have h2 : k + 1 - 1 = k := rfl
                  rw [h2]
                  have hj2 : k < rest.length + 1 := by
                    have := hj'
                    simp only [List.length_cons] at this
                    omega
                  have hk : k < ((process_chain
                      (record_origin tp (get_task_id origin.id n) origin.id)
                      origin
                      (link_tasks prev (convert_chain_record cur origin n))
                      (n + 1) (next :: rest)).1).length := by
                    rw [ihlen]
                    simp only [List.length_cons]
                    omega
                  cases hzv : ((process_chain
                      (record_origin tp (get_task_id origin.id n) origin.id)
                      origin
                      (link_tasks prev (convert_chain_record cur origin n))
                      (n + 1) (next :: rest)).1).get? k with
                  | none =>
                      rw [List.get?_eq_none] at hzv
                      omega
                  | some v => rfl
            · have hiff :
                  (j' = (next :: rest).length - 1) ↔
                    (j' + 1 = (cur :: next :: rest).length - 1) := by
                simp only [List.length_cons]
                omega
              by_cases hl : j' = (next :: rest).length - 1
              · rw [if_pos hl, if_pos (hiff.mp hl)]
              · rw [if_neg hl, if_neg (fun hc => hl (hiff.mpr hc))]
                congr 1
                omega

/-- Shape of a successful `process_tasks` run: empty input yields nothing,
a single record is converted in place, a chain of two or more records is
converted to `_start` / interior / `_end` records, each linked to the
previous output record. -/
theorem process_tasks_ok_shape (tp : TaskProcessor) (origin : CTask)
    (ser ys : List ATask) (tp' : TaskProcessor)
    (h : process_tasks tp origin ser = .ok (ys, tp')) :
    ys.length = ser.length ∧
    (ser = [] → ys = []) ∧
    (∀ t, ser = [t] → ys = [convert_record t origin none none]) ∧
    (∀ t0 t1 rest, ser = t0 :: t1 :: rest →
      ys.get? 0 = some (convert_first_record t0 origin) ∧
      ∀ j, 1 ≤ j → j < ser.length →
        ∃ y p r, ys.get? j = some y ∧ ys.get? (j - 1) = some p ∧
          ser.get? j = some r ∧
          y = link_tasks p
            (if j = ser.length - 1 then convert_last_record r origin
             else convert_chain_record r origin j)) := by
  match ser with
  | [] =>
      simp only [process_tasks, Except.ok.injEq, Prod.mk.injEq] at h
      refine ⟨by simp [← h.1], fun _ => h.1.symm, by simp, by simp⟩
  | [t] =>
      cases hg : ensure_task_based_deploy_allowed origin with
      | error e => simp [process_tasks, hg] at h
      | ok u =>
          simp only [process_tasks, hg, Except.ok.injEq, Prod.mk.injEq] at h
          refine ⟨by simp [← h.1], by simp, ?_, by simp⟩
          intro t' ht'
          obtain rfl : t = t' := by
            simpa using congrArg (fun l => l.get? 0) ht'
          exact h.1.symm
  | t0 :: t1 :: rest =>
      cases hg : ensure_task_based_deploy_allowed origin with
      | error e => simp [process_tasks, hg] at h
      | ok u =>
          simp only [process_tasks, hg, Except.ok.injEq, Prod.mk.injEq] at h
          obtain ⟨hys, -⟩ := h
          obtain ⟨ihlen, ih⟩ := process_chain_get origin (t1 :: rest)
            (record_origin tp (get_first_task_id origin.id) origin.id)
            (convert_first_record t0 origin) 1 (by simp)
          subst hys
          refine ⟨by simp [ihlen], by simp, by simp, ?_⟩
          intro t0' t1' rest' heq
          obtain ⟨rfl, rfl, rfl⟩ : t0 = t0' ∧ t1 = t1' ∧ rest = rest' := by
            simp only [List.cons.injEq] at heq
            exact ⟨heq.1, heq.2.1, heq.2.2⟩
          refine ⟨rfl, ?_⟩
          intro j hj1 hjlen
          match j, hj1 with
          | j' + 1, _ =>
              have hj' : j' < (t1 :: rest).length := by
                simp only [List.length_cons] at hjlen ⊢
                omega
              obtain ⟨y, r, hy, hr, hlink⟩ := ih j' hj'
              refine ⟨y,
                (if j' = 0 then convert_first_record t0 origin
                 else ((process_chain
                    (record_origin tp (get_first_task_id origin.id) origin.id)
                    origin (convert_first_record t0 origin) 1
                    (t1 :: rest)).1.get? (j' - 1)).getD
                   (convert_first_record t0 origin)),
                r, by simpa using hy, ?_, by simpa using hr, ?_⟩
              · have h1 : j' + 1 - 1 = j' := rfl
                rw [h1]
                match j' with
                | 0 => rw [if_pos rfl]; rfl
                | k + 1 =>
                    rw [if_neg (Nat.succ_ne_zero k)]
                    have h2 : k + 1 - 1 = k := rfl
                    rw [List.get?_cons_succ, h2]
                    have hk : k < ((process_chain
                        (record_origin tp (get_first_task_id origin.id)
                          origin.id)
                        origin (convert_first_record t0 origin) 1
                        (t1 :: rest)).1).length := by
                      rw [ihlen]
                      simp only [List.length_cons] at hj' ⊢
                      omega
                    cases hzv : ((process_chain
                        (record_origin tp (get_first_task_id origin.id)
                          origin.id)
                        origin (convert_first_record t0 origin) 1
                        (t1 :: rest)).1).get? k with
                    | none =>
                        rw [List.get?_eq_none] at hzv
                        omega
                    | some v => rfl
              · rw [hlink]
                congr 1
                have hiff : (j' = (t1 :: rest).length - 1) ↔
                    (j' + 1 = (t0 :: t1 :: rest).length - 1) := by
                  simp only [List.length_cons]
                  omega
                by_cases hl : j' = (t1 :: rest).length - 1
                · rw [if_pos hl, if_pos (hiff.mp hl)]
                · rw [if_neg hl, if_neg (fun hc => hl (hiff.mpr hc))]
                  congr 1
                  omega

/-- Ids yielded by a successful `process_tasks` run. -/
theorem process_tasks_ids (tp : TaskProcessor) (origin : CTask)
    (ser ys : List ATask) (tp' : TaskProcessor)
    (h : process_tasks tp origin ser = .ok (ys, tp')) :
    (ser.length = 1 → ys.map ATask.id = [origin.id]) ∧
    (2 ≤ ser.length → ys.map ATask.id =
      get_first_task_id origin.id ::
        ((List.range (ser.length - 2)).map
          (fun k => get_task_id origin.id (k + 1)) ++
          [get_last_task_id origin.id])) := by
  match ser with
  | [] =>
      refine ⟨by simp, by simp⟩
  | [t] =>
      obtain ⟨-, -, hsingle, -⟩ := process_tasks_ok_shape tp origin [t] ys tp' h
      refine ⟨fun _ => ?_, by simp⟩
      rw [hsingle t rfl]
      simp [convert_record_id]
  | t0 :: t1 :: rest =>
      cases hg : ensure_task_based_deploy_allowed origin with
      | error e => simp [process_tasks, hg] at h
      | ok u =>
          simp only [process_tasks, hg, Except.ok.injEq, Prod.mk.injEq] at h
          obtain ⟨hys, -⟩ := h
          subst hys
          refine ⟨by simp, fun _ => ?_⟩
          have hids := process_chain_ids origin (t1 :: rest)
            (record_origin tp (get_first_task_id origin.id) origin.id)
            (convert_first_record t0 origin) 1 (by simp)
          simp only [List.map_cons]
          rw [hids]
          simp only [convert_first_record, convert_record_id,
            Option.getD_some, List.length_cons, Nat.add_sub_cancel]

          have : rest.length + 1 + 1 - 2 = rest.length := by omega
          rw [this]
          congr 1
          congr 1
          apply List.map_congr_left
          intro k _
          congr 1
          omega

theorem string_append_left_cancel (s a b : String) (h : s ++ a = s ++ b) :
    a = b := by
  have hd := congrArg String.data h
  simp only [String.data_append] at hd
  exact String.ext (List.append_cancel_left hd)

theorem get_first_task_id_ne_get_task_id (s : String) (m : Nat) :
    get_first_task_id s ≠ get_task_id s m := by
  intro h
  unfold get_first_task_id get_task_id at h
  rw [String.append_assoc] at h
  have h2 : ("_start" : String) = "#" ++ toString m :=
    string_append_left_cancel _ _ _ h
  have hd2 := congrArg String.data h2
  rw [String.data_append,
    show ("#" : String).data = ['#'] from rfl,
    show ("_start" : String).data = ['_', 's', 't', 'a', 'r', 't'] from rfl]
    at hd2
  have hh := congrArg List.head? hd2
  simp only [List.head?, List.cons_append] at hh
  exact absurd (Option.some.inj hh) (by decide)

theorem get_last_task_id_ne_get_task_id (s : String) (m : Nat) :
    get_last_task_id s ≠ get_task_id s m := by
  intro h
  unfold get_last_task_id get_task_id at h
  rw [String.append_assoc] at h
  have h2 : ("_end" : String) = "#" ++ toString m :=
    string_append_left_cancel _ _ _ h
  have hd2 := congrArg String.data h2
  rw [String.data_append,
    show ("#" : String).data = ['#'] from rfl,
    show ("_end" : String).data = ['_', 'e', 'n', 'd'] from rfl] at hd2
  have hh := congrArg List.head? hd2
  simp only [List.head?, List.cons_append] at hh
  exact absurd (Option.some.inj hh) (by decide)

theorem get_first_task_id_ne_get_last_task_id (s : String) :
    get_first_task_id s ≠ get_last_task_id s := by
  intro h
  unfold get_first_task_id get_last_task_id at h
  have h2 : ("_start" : String) = "_end" :=
    string_append_left_cancel _ _ _ h
  exact absurd h2 (by decide)

end TaskProcessor

/-! ### Claim theorems -/

/-- **C1** (counterexample): driving a serializer that emits N = 3 records
through `TaskProcessor.process_tasks` yields the ids `t1_start`, `t1#1`,
`t1_end`: the interior ids stop at `#N-2 = #1`, while the claim's range
`#1 … #N-1` asserts that a record with id `t1#2` is present — no yielded
record carries that id. -/
theorem claim_C1_counterexample :
    ∃ p, TaskProcessor.process_tasks {} c1_origin c1_ser = .ok p ∧
      p.1.map ATask.id = ["t1_start", "t1#1", "t1_end"] ∧
      "t1#2" ∉ p.1.map ATask.id := by
  refine ⟨c1_out, rfl, rfl, ?_⟩
  decide

/-- **C1** (amended): for a catalog task whose serializer emits N records
driven through `TaskProcessor.process_tasks`: when N = 1 the sole yielded
record keeps id `<origin>`; when N ≥ 2 the yielded ids are exactly
`<origin>_start`, the interior ids `<origin>#1` through `<origin>#N-2`
(present when N ≥ 3), and `<origin>_end`, with `<origin>_start` and
`<origin>_end` each occurring exactly once. -/
theorem claim_C1 (tp : TaskProcessor) (origin : CTask) (ser ys : List ATask)
    (tp' : TaskProcessor)
    (h : TaskProcessor.process_tasks tp origin ser = .ok (ys, tp')) :
    (ser.length = 1 → ys.map ATask.id = [origin.id]) ∧
    (2 ≤ ser.length →
      ys.map ATask.id =
        TaskProcessor.get_first_task_id origin.id ::
          ((List.range (ser.length - 2)).map
            (fun k => TaskProcessor.get_task_id origin.id (k + 1)) ++
            [TaskProcessor.get_last_task_id origin.id]) ∧
      (ys.map ATask.id).count (TaskProcessor.get_first_task_id origin.id) = 1 ∧
      (ys.map ATask.id).count (TaskProcessor.get_last_task_id origin.id) = 1) := by
  obtain ⟨h1, h2⟩ := TaskProcessor.process_tasks_ids tp origin ser ys tp' h
  refine ⟨h1, fun hlen => ?_⟩
  have hids := h2 hlen
  refine ⟨hids, ?_, ?_⟩
  · rw [hids]
    rw [List.count_cons_self, List.count_append]
    have hint : ((List.range (ser.length - 2)).map
        (fun k => TaskProcessor.get_task_id origin.id (k + 1))).count
        (TaskProcessor.get_first_task_id origin.id) = 0 := by
      rw [List.count_eq_zero]
      intro hmem
      obtain ⟨k, -, hk⟩ := List.mem_map.mp hmem
      exact TaskProcessor.get_first_task_id_ne_get_task_id origin.id (k + 1)
        hk.symm
    have hlast : ([TaskProcessor.get_last_task_id origin.id]).count
        (TaskProcessor.get_first_task_id origin.id) = 0 := by
      rw [List.count_eq_zero]
      intro hmem
      exact TaskProcessor.get_first_task_id_ne_get_last_task_id origin.id
        (by simpa using hmem)
    rw [hint, hlast]
  · rw [hids]
    rw [List.count_cons_of_ne, List.count_append]
    · have hint : ((List.range (ser.length - 2)).map
          (fun k => TaskProcessor.get_task_id origin.id (k + 1))).count
          (TaskProcessor.get_last_task_id origin.id) = 0 := by
        rw [List.count_eq_zero]
        intro hmem
        obtain ⟨k, -, hk⟩ := List.mem_map.mp hmem
        exact TaskProcessor.get_last_task_id_ne_get_task_id origin.id (k + 1)
          hk.symm
      rw [hint, List.count_singleton]
      simp
    · intro hc
      exact TaskProcessor.get_first_task_id_ne_get_last_task_id origin.id
        hc.symm

/-- **C1** (witness): the amended theorem applied to the concrete chain of
three records. -/
theorem claim_C1_witness :
    2 ≤ c1_ser.length ∧
    (c1_out.1.map ATask.id).count
      (TaskProcessor.get_first_task_id c1_origin.id) = 1 :=
  ⟨by decide,
   ((claim_C1 {} c1_origin c1_ser c1_out.1 c1_out.2 rfl).2 (by decide)).2.1⟩

/-- **C2**: for every chain of N ≥ 2 records yielded by
`TaskProcessor.process_tasks`: the first record copies only `requires` and
`cross-depends` from the origin, the last record copies only
`required_for` and `cross-depended-by`, interior records copy no
dependency fields from the origin; and every record after the first is
wired to its predecessor: when the two records' uids are equal the
previous record's id is appended to its `requires` list, otherwise one
entry `{name: previous_id, node_id: uid}` per uid of the previous record
is appended to its `requires_ex` list. -/
theorem claim_C2 (tp : TaskProcessor) (origin : CTask) (r0 r1 : ATask)
    (rs ys : List ATask) (tp' : TaskProcessor)
    (h : TaskProcessor.process_tasks tp origin (r0 :: r1 :: rs) =
      .ok (ys, tp')) :
    (∃ y0, ys.get? 0 = some y0 ∧
      y0.requires = origin.requires.or r0.requires ∧
      y0.cross_depends = origin.cross_depends.or r0.cross_depends ∧
      y0.required_for = r0.required_for ∧
      y0.cross_depended_by = r0.cross_depended_by ∧
      y0.requires_ex = r0.requires_ex ∧
      y0.required_for_ex = r0.required_for_ex ∧
      y0.uids = r0.uids) ∧
    (∀ j, 1 ≤ j → j < rs.length + 2 →
      ∃ y p r, ys.get? j = some y ∧ ys.get? (j - 1) = some p ∧
        (r0 :: r1 :: rs).get? j = some r ∧
        y.uids = r.uids ∧
        y.required_for_ex = r.required_for_ex ∧
        y.cross_depends = r.cross_depends ∧
        (j < rs.length + 1 →
          y.required_for = r.required_for ∧
          y.cross_depended_by = r.cross_depended_by) ∧
        (j = rs.length + 1 →
          y.required_for = origin.required_for.or r.required_for ∧
          y.cross_depended_by =
            origin.cross_depended_by.or r.cross_depended_by) ∧
        (p.uids = r.uids →
          y.requires = some (r.requires.getD [] ++ [p.id]) ∧
          y.requires_ex = r.requires_ex) ∧
        (p.uids ≠ r.uids →
          y.requires = r.requires ∧
          y.requires_ex = some (r.requires_ex.getD [] ++
            (p.uids.getD []).map (fun u => (⟨p.id, u⟩ : Rel))))) := by
  obtain ⟨-, -, -, hchain⟩ :=
    TaskProcessor.process_tasks_ok_shape tp origin (r0 :: r1 :: rs) ys tp' h
  obtain ⟨hfirst, hrest⟩ := hchain r0 r1 rs rfl
  constructor
  · refine ⟨TaskProcessor.convert_first_record r0 origin, hfirst, ?_⟩
    rw [TaskProcessor.convert_first_record_eq]
    exact ⟨rfl, rfl, rfl, rfl, rfl, rfl, rfl⟩
  · intro j hj1 hjlen
    obtain ⟨y, p, r, hy, hp, hr, hlink⟩ := hrest j hj1 (by simpa using hjlen)
    refine ⟨y, p, r, hy, hp, hr, ?_⟩
    have hserlen : (r0 :: r1 :: rs).length - 1 = rs.length + 1 := by simp
    rw [hserlen] at hlink
    by_cases hl : j = rs.length + 1
    · rw [if_pos hl] at hlink
      have hcu : (TaskProcessor.convert_last_record r origin).uids = r.uids :=
        TaskProcessor.convert_last_record_uids r origin
      refine ⟨?_, ?_, ?_, ?_, ?_, ?_, ?_⟩
      · rw [hlink, TaskProcessor.link_tasks_uids, hcu]
      · rw [hlink, TaskProcessor.link_tasks_required_for_ex,
          TaskProcessor.convert_last_record_required_for_ex]
      · rw [hlink, TaskProcessor.link_tasks_cross_depends,
          TaskProcessor.convert_last_record_cross_depends]
      · intro hcon
        omega
      · intro _
        rw [hlink, TaskProcessor.link_tasks_required_for,
          TaskProcessor.link_tasks_cross_depended_by,
          TaskProcessor.convert_last_record_required_for,
          TaskProcessor.convert_last_record_cross_depended_by]
        exact ⟨rfl, rfl⟩
      · intro heq
        have heq' : p.uids = (TaskProcessor.convert_last_record r origin).uids := by
          rw [hcu]
          exact heq
        rw [hlink, TaskProcessor.link_tasks_requires_eq _ _ heq',
          TaskProcessor.link_tasks_requires_ex_eq _ _ heq',
          TaskProcessor.convert_last_record_requires,
          TaskProcessor.convert_last_record_requires_ex]
        exact ⟨rfl, rfl⟩
      · intro hne
        have hne' : p.uids ≠ (TaskProcessor.convert_last_record r origin).uids := by
          rw [hcu]
          exact hne
        rw [hlink, TaskProcessor.link_tasks_requires_ne _ _ hne',
          TaskProcessor.link_tasks_requires_ex_ne _ _ hne',
          TaskProcessor.convert_last_record_requires,
          TaskProcessor.convert_last_record_requires_ex]
        exact ⟨rfl, rfl⟩
    · rw [if_neg hl] at hlink
      have hcu : (TaskProcessor.convert_chain_record r origin j).uids = r.uids :=
        TaskProcessor.convert_chain_record_uids r origin j
      refine ⟨?_, ?_, ?_, ?_, ?_, ?_, ?_⟩
      · rw [hlink, TaskProcessor.link_tasks_uids, hcu]
      · rw [hlink, TaskProcessor.link_tasks_required_for_ex,
          TaskProcessor.convert_chain_record_required_for_ex]
      · rw [hlink, TaskProcessor.link_tasks_cross_depends,
          TaskProcessor.convert_chain_record_cross_depends]
      · intro _
        rw [hlink, TaskProcessor.link_tasks_required_for,
          TaskProcessor.link_tasks_cross_depended_by,
          TaskProcessor.convert_chain_record_required_for,
          TaskProcessor.convert_chain_record_cross_depended_by]
        exact ⟨rfl, rfl⟩
      · intro hcon
        exact absurd hcon hl
      · intro heq
        have heq' : p.uids = (TaskProcessor.convert_chain_record r origin j).uids := by
          rw [hcu]
          exact heq
        rw [hlink, TaskProcessor.link_tasks_requires_eq _ _ heq',
          TaskProcessor.link_tasks_requires_ex_eq _ _ heq',
          TaskProcessor.convert_chain_record_requires,
          TaskProcessor.convert_chain_record_requires_ex]
        exact ⟨rfl, rfl⟩
      · intro hne
        have hne' : p.uids ≠ (TaskProcessor.convert_chain_record r origin j).uids := by
          rw [hcu]
          exact hne
        rw [hlink, TaskProcessor.link_tasks_requires_ne _ _ hne',
          TaskProcessor.link_tasks_requires_ex_ne _ _ hne',
          TaskProcessor.convert_chain_record_requires,
          TaskProcessor.convert_chain_record_requires_ex]
        exact ⟨rfl, rfl⟩

/-- **C2** (witness): the theorem applied to the concrete chain of three
records on one node. -/
theorem claim_C2_witness :
    ∃ y0, c1_out.1.get? 0 = some y0 ∧ y0.requires = none ∧
      y0.uids = some [some "n1"] := by
  obtain ⟨y0, h0, hreq, -, -, -, -, -, huids⟩ := (claim_C2 {} c1_origin
    { type := "puppet", uids := some [some "n1"] }
    { type := "puppet", uids := some [some "n1"] }
    [{ type := "puppet", uids := some [some "n1"] }]
    c1_out.1 c1_out.2 rfl).1
  exact ⟨y0, h0, hreq, huids⟩

/-- **C7**: when placing a record under an existing `(node_id, task_id)`
key, `TasksSerializer.need_update_task` decides: place if absent; keep the
existing placement if one with the same type is present; if the types
differ, replace exactly when the new record's type is not `skipped`. -/
theorem claim_C7 (tasks : Bucket) (task : ATask) :
    (alGet tasks task.id = none →
      TasksSerializer.need_update_task tasks task = true) ∧
    (∀ e, alGet tasks task.id = some e → e.type = task.type →
      TasksSerializer.need_update_task tasks task = false) ∧
    (∀ e, alGet tasks task.id = some e → e.type ≠ task.type →
      (TasksSerializer.need_update_task tasks task = true ↔
        task.type ≠ "skipped")) := by
  refine ⟨?_, ?_, ?_⟩
  · intro hnone
    unfold TasksSerializer.need_update_task
    rw [hnone]
  · intro e he htype
    unfold TasksSerializer.need_update_task
    rw [he]
    simp [htype]
  · intro e he htype
    unfold TasksSerializer.need_update_task
    rw [he]
    simp [htype]

/-- **C7** (witness): a non-skipped record replaces a previously placed
skipped record with the same id. -/
theorem claim_C7_witness :
    TasksSerializer.need_update_task
      [("t1", ({ id := "t1", type := "skipped" } : ATask))]
      { id := "t1", type := "puppet" } = true :=
  ((claim_C7 [("t1", { id := "t1", type := "skipped" })]
      { id := "t1", type := "puppet" }).2.2
    { id := "t1", type := "skipped" } rfl (by decide)).mpr (by decide)

/-- **C8**: the version gate raises `TaskBaseDeploymentNotAllowed` (the
spec's TaskVersionUnsupported) exactly when the task's type is not `stage`
and its declared version (default "1.0.0") compares strictly below the
cross-dependency threshold under dotted-numeric comparison; within
`process_tasks` an empty serialization returns immediately without
invoking the gate, while a nonempty one propagates the gate's error. -/
theorem claim_C8 :
    (∀ task : CTask,
      TaskProcessor.ensure_task_based_deploy_allowed task =
        .error .taskBaseDeploymentNotAllowed ↔
      (task.type ≠ "stage" ∧
       versionLt (parseVersion (task.version.getD "1.0.0"))
         TaskProcessor.min_supported_task_version = true)) ∧
    (∀ (tp : TaskProcessor) (task : CTask),
      TaskProcessor.process_tasks tp task [] = .ok ([], tp)) ∧
    (∀ (tp : TaskProcessor) (task : CTask) (ser : List ATask)
      (e : DeployError),
      TaskProcessor.ensure_task_based_deploy_allowed task = .error e →
      ser ≠ [] → TaskProcessor.process_tasks tp task ser = .error e) := by
  refine ⟨?_, ?_, ?_⟩
  · intro task
    unfold TaskProcessor.ensure_task_based_deploy_allowed
    by_cases hstage : task.type = "stage"
    · simp [hstage]
    · by_cases hver : versionLt (parseVersion (task.version.getD "1.0.0"))
        TaskProcessor.min_supported_task_version = true
      · simp [hstage, hver]
      · simp [hstage, hver]
  · intro tp task
    rfl
  · intro tp task ser e hg hne
    match ser with
    | [] => exact absurd rfl hne
    | [t] => simp [TaskProcessor.process_tasks, hg]
    | t0 :: t1 :: rest => simp [TaskProcessor.process_tasks, hg]

/-- **C8** (witness): an under-versioned task is rejected by the gate but
passes through `process_tasks` untouched when the serialization is empty;
with a nonempty serialization the error is raised. -/
theorem claim_C8_witness :
    TaskProcessor.ensure_task_based_deploy_allowed
      { id := "old", type := "puppet", version := some "1.0.0" } =
      .error .taskBaseDeploymentNotAllowed ∧
    TaskProcessor.process_tasks {}
      { id := "old", type := "puppet", version := some "1.0.0" } [] =
      .ok ([], {}) ∧
    TaskProcessor.process_tasks {}
      { id := "old", type := "puppet", version := some "1.0.0" }
      [{ type := "puppet" }] = .error .taskBaseDeploymentNotAllowed :=
  ⟨(claim_C8.1 { id := "old", type := "puppet", version := some "1.0.0" }).mpr
      (by decide),
   claim_C8.2.1 {} { id := "old", type := "puppet", version := some "1.0.0" },
   claim_C8.2.2 {} { id := "old", type := "puppet", version := some "1.0.0" }
     [{ type := "puppet" }] .taskBaseDeploymentNotAllowed rfl
     (by simp)⟩

theorem CTask_update_skipped_none_self (t : CTask) (h : t.skipped = none) :
    { t with skipped := none } = t := by
  cases t
  simp_all

/-- The exact-match branch of `resolve_relation_keys`: a bucket key equal
to the searched name is always emitted directly. -/
theorem resolve_relation_keys_exact (tp : TaskProcessor) (name : String)
    (node_id : NodeId) (irf : Bool) (mp : String → Bool) :
    ∀ (keys applied : List String), name ∈ keys →
      (⟨name, node_id⟩ : Rel) ∈
        TasksSerializer.resolve_relation_keys tp name node_id irf mp keys
          applied := by
  intro keys
  induction keys with
  | nil => intro applied h; simp at h
  | cons k rest ih =>
      intro applied hmem
      unfold TasksSerializer.resolve_relation_keys
      by_cases hk : k = name
      · subst hk
        simp only [if_pos rfl]
        exact List.mem_cons_self _ _
      · rw [if_neg hk]
        have hrest : name ∈ rest := by
          rcases List.mem_cons.mp hmem with h | h
          · exact absurd h.symm hk
          · exact h
        by_cases hskip : tp.get_origin k ∈ applied ∨ mp (tp.get_origin k) = false
        · have : (tp.get_origin k ∈ applied || !mp (tp.get_origin k)) = true := by
            rcases hskip with h | h
            · simp [h]
            · simp [h]
          rw [if_pos this]
          exact ih applied hrest
        · push_neg at hskip
          have : (tp.get_origin k ∈ applied || !mp (tp.get_origin k)) = false := by
            simp only [Bool.or_eq_false_iff, Bool.not_eq_true']
            exact ⟨by simpa using hskip.1, by simpa using hskip.2⟩
          rw [if_neg (by simp [this])]
          exact List.mem_cons_of_mem _ (ih _ hrest)

/-- The matcher branch of `resolve_relation_keys`: the emitted relations
whose name differs from the reference correspond one-to-one, in order, to
distinct matching origins of bucket keys; the emitting key fixes the
rendered name — a key that is its own origin (a plain record) is emitted
under that name, while a chain member (key differing from its origin) is
emitted as the `_start` / `_end` endpoint selected by `is_required_for`. -/
theorem resolve_relation_keys_matched (tp : TaskProcessor) (name : String)
    (node_id : NodeId) (irf : Bool) (mp : String → Bool) :
    ∀ (keys applied : List String),
      ∃ origins : List String, origins.Nodup ∧
        (∀ o ∈ origins, o ∉ applied) ∧
        List.Forall₂
          (fun o r => mp o = true ∧ r.node_id = node_id ∧
            (∃ k, k ∈ keys ∧ k ≠ name ∧ tp.get_origin k = o ∧
              r.name = (if o = k then o
                        else if irf then TaskProcessor.get_first_task_id o
                        else TaskProcessor.get_last_task_id o)))
          origins
          ((TasksSerializer.resolve_relation_keys tp name node_id irf mp keys
              applied).filter (fun r => r.name ≠ name)) := by
  intro keys
  induction keys with
  | nil =>
      intro applied
      exact ⟨[], List.nodup_nil, by simp, by
        simp [TasksSerializer.resolve_relation_keys]⟩
  | cons k rest ih =>
      intro applied
      unfold TasksSerializer.resolve_relation_keys
      by_cases hk : k = name
      · subst hk
        rw [if_pos rfl]
        obtain ⟨origins, hnd, hdis, hf⟩ := ih applied
        refine ⟨origins, hnd, hdis, ?_⟩
        rw [List.filter_cons_of_neg (by simp)]
        exact hf.imp (fun {o r} hor =>
          ⟨hor.1, hor.2.1,
           hor.2.2.imp (fun k' hk' => ⟨List.mem_cons_of_mem _ hk'.1,
             hk'.2.1, hk'.2.2.1, hk'.2.2.2⟩)⟩)
      · rw [if_neg hk]
        by_cases hskip :
            (tp.get_origin k ∈ applied || !mp (tp.get_origin k)) = true
        · rw [if_pos hskip]
          obtain ⟨origins, hnd, hdis, hf⟩ := ih applied
          refine ⟨origins, hnd, hdis, ?_⟩
          exact hf.imp (fun {o r} hor =>
            ⟨hor.1, hor.2.1,
             hor.2.2.imp (fun k' hk' => ⟨List.mem_cons_of_mem _ hk'.1,
               hk'.2.1, hk'.2.2.1, hk'.2.2.2⟩)⟩)
        · rw [if_neg hskip]
          have hnotin : tp.get_origin k ∉ applied := by
            intro hc
            exact hskip (by simp [hc])
          have hmp : mp (tp.get_origin k) = true := by
            by_contra hc
            have hfalse : mp (tp.get_origin k) = false := by
              cases hb : mp (tp.get_origin k) with
              | false => rfl
              | true => exact absurd hb hc
            exact hskip (by simp [hfalse])
          obtain ⟨origins, hnd, hdis, hf⟩ := ih (tp.get_origin k :: applied)
          have himp :
              List.Forall₂
                (fun o r => mp o = true ∧ r.node_id = node_id ∧
                  (∃ k', k' ∈ k :: rest ∧ k' ≠ name ∧
                    tp.get_origin k' = o ∧
                    r.name = (if o = k' then o
                              else if irf then
                                TaskProcessor.get_first_task_id o
                              else TaskProcessor.get_last_task_id o)))
                origins
                ((TasksSerializer.resolve_relation_keys tp name node_id irf
                    mp rest (tp.get_origin k :: applied)).filter
                  (fun r => r.name ≠ name)) :=
            hf.imp (fun {o r} hor =>
              ⟨hor.1, hor.2.1,
               hor.2.2.imp (fun k' hk' =>
                 ⟨List.mem_cons_of_mem _ hk'.1, hk'.2.1, hk'.2.2.1,
                  hk'.2.2.2⟩)⟩)
          have hdis' : ∀ o ∈ origins, o ∉ applied := fun o ho hc =>
            hdis o ho (List.mem_cons_of_mem _ hc)
          have hndcons : (tp.get_origin k :: origins).Nodup :=
            List.nodup_cons.mpr
              ⟨fun hc => hdis _ hc (List.mem_cons_self _ _), hnd⟩
          have hdiscons : ∀ o ∈ tp.get_origin k :: origins, o ∉ applied := by
            intro o ho
            rcases List.mem_cons.mp ho with h | h
            · subst h
              exact hnotin
            · exact hdis' o h
          by_cases hchain : tp.get_origin k = k
          · -- plain record: emitted under its own key name
            rw [if_pos hchain]
            refine ⟨tp.get_origin k :: origins, hndcons, hdiscons, ?_⟩
            rw [List.filter_cons_of_pos (by simp [hk])]
            exact List.Forall₂.cons
              ⟨hmp, rfl, ⟨k, List.mem_cons_self _ _, hk, rfl,
                by simp [hchain]⟩⟩ himp
          · -- chain member: emitted as the selected endpoint
            rw [if_neg hchain]
            by_cases hout :
                ((if irf then
                    TaskProcessor.get_first_task_id (tp.get_origin k)
                  else TaskProcessor.get_last_task_id (tp.get_origin k)) :
                  String) = name
            · refine ⟨origins, hnd, hdis', ?_⟩
              rw [List.filter_cons_of_neg (by simp [hout])]
              exact himp
            · refine ⟨tp.get_origin k :: origins, hndcons, hdiscons, ?_⟩
              rw [List.filter_cons_of_pos (by simp [hout])]
              exact List.Forall₂.cons
                ⟨hmp, rfl, ⟨k, List.mem_cons_self _ _, hk, rfl,
                  (if_neg hchain).symm⟩⟩ himp

/-- **C3**: in `TasksSerializer.resolve_relation`, an exact id match in
the bucket is emitted directly as `{name, node_id}`; when a reference
name does not exactly equal a placed task id but its compiled matcher
matches a placed record's origin task id, that origin is yielded at most
once per node per resolution call (the emissions correspond, in order, to
pairwise-distinct origins), each emission's name being fixed by the
emitting bucket key: a key that is its own origin keeps that name, and a
matched chain member (a key differing from its origin) is emitted as
`<origin>_start` when `is_required_for = true` and `<origin>_end`
otherwise. -/
theorem claim_C3 (s : TasksSerializer) (name : String) (node_id : NodeId)
    (irf : Bool) :
    (∀ k ∈ TasksSerializer.bucket_keys s node_id, k = name →
      (⟨name, node_id⟩ : Rel) ∈
        TasksSerializer.resolve_relation s name [node_id] irf) ∧
    (∃ origins : List String, origins.Nodup ∧
      List.Forall₂ (fun o r =>
          nameMatch name o = true ∧ r.node_id = node_id ∧
          (∃ k, k ∈ TasksSerializer.bucket_keys s node_id ∧ k ≠ name ∧
            s.task_processor.get_origin k = o ∧
            r.name = (if o = k then o
                      else if irf then TaskProcessor.get_first_task_id o
                      else TaskProcessor.get_last_task_id o)))
        origins
        ((TasksSerializer.resolve_relation s name [node_id] irf).filter
          (fun r => r.name ≠ name))) := by
  have hrr : TasksSerializer.resolve_relation s name [node_id] irf =
      TasksSerializer.resolve_relation_keys s.task_processor name node_id irf
        (nameMatch name) (TasksSerializer.bucket_keys s node_id) [] := by
    simp [TasksSerializer.resolve_relation]
  constructor
  · intro k hkmem hkeq
    rw [hrr]
    subst hkeq
    exact resolve_relation_keys_exact s.task_processor k node_id irf
      (nameMatch k) (TasksSerializer.bucket_keys s node_id) [] hkmem
  · rw [hrr]
    obtain ⟨origins, hnd, -, hf⟩ := resolve_relation_keys_matched
      s.task_processor name node_id irf (nameMatch name)
      (TasksSerializer.bucket_keys s node_id) []
    exact ⟨origins, hnd, hf⟩

/-- **C3** (witness): an exact id match is emitted directly for the
concrete placed state; resolving the reference `t1` on the same state
pattern-matches the chain members `t1_start` / `t1_end` (origin `t1`),
dedups the origin, and renames the emission to the `t1_end` endpoint
selected by `is_required_for = false`. -/
theorem claim_C3_witness :
    ((⟨"t2", some "n1"⟩ : Rel) ∈
      TasksSerializer.resolve_relation c3_state "t2" [some "n1"] false) ∧
    TasksSerializer.resolve_relation c3_state "t1" [some "n1"] false =
      [⟨"t1_end", some "n1"⟩] :=
  ⟨(claim_C3 c3_state "t2" (some "n1") false).1 "t2" (by decide) rfl, rfl⟩

/-! ### Preservation of non-skipped placements -/

theorem alGet_append_left [DecidableEq α] (l l2 : List (α × β)) (k : α)
    (v : β) (h : alGet l k = some v) : alGet (l ++ l2) k = some v := by
  induction l with
  | nil => simp [alGet] at h
  | cons p rest ih =>
      obtain ⟨a, b⟩ := p
      by_cases ha : a = k
      · simpa [alGet, ha] using h
      · simp only [alGet, if_neg ha] at h
        simpa [alGet, ha] using ih h

theorem need_update_task_eq (tasks : Bucket) (t e : ATask)
    (he : alGet tasks t.id = some e) :
    TasksSerializer.need_update_task tasks t =
      (if e.type = t.type then false else decide (t.type ≠ "skipped")) := by
  unfold TasksSerializer.need_update_task
  rw [he]

/-- Storing one record on one node never replaces a non-skipped record
with a skipped one (`need_update_task` forbids the downgrade). -/
theorem place_on_node_preserves (pm : PlacementMap) (t1 : ATask)
    (u node : NodeId) (tid : String) (r : ATask)
    (h : placed_get pm node tid = some r) (hr : r.type ≠ "skipped") :
    ∃ r', placed_get (TasksSerializer.place_on_node pm t1 u) node tid =
      some r' ∧ r'.type ≠ "skipped" := by
  unfold TasksSerializer.place_on_node
  by_cases hupd : TasksSerializer.need_update_task ((alGet pm u).getD []) t1
  · rw [if_pos hupd]
    by_cases hu : u = node
    · subst hu
      unfold placed_get at h ⊢
      rw [alGet_alSet_self]
      simp only [Option.getD_some]
      by_cases hid : t1.id = tid
      · subst hid
        refine ⟨t1, alGet_alSet_self _ _ _, ?_⟩
        rw [need_update_task_eq _ _ r h] at hupd
        by_cases htype : r.type = t1.type
        · rw [← htype]
          exact hr
        · rw [if_neg htype] at hupd
          simpa using hupd
      · rw [alGet_alSet_ne _ _ _ _ hid]
        exact ⟨r, h, hr⟩
    · unfold placed_get at h ⊢
      rw [alGet_alSet_ne _ _ _ _ hu]
      exact ⟨r, h, hr⟩
  · rw [if_neg hupd]
    exact ⟨r, h, hr⟩

theorem place_fold_preserves (t1 : ATask) :
    ∀ (l : List NodeId) (pm : PlacementMap) (node : NodeId) (tid : String)
      (r : ATask), placed_get pm node tid = some r → r.type ≠ "skipped" →
      ∃ r', placed_get
        (l.foldl (fun pm node_id => TasksSerializer.place_on_node pm t1
          node_id) pm) node tid = some r' ∧ r'.type ≠ "skipped"
  | [], pm, node, tid, r, h, hr => ⟨r, h, hr⟩
  | u :: rest, pm, node, tid, r, h, hr => by
      obtain ⟨r', h', hr'⟩ := place_on_node_preserves pm t1 u node tid r h hr
      exact place_fold_preserves t1 rest _ node tid r' h' hr'

theorem place_astute_task_preserves (pm : PlacementMap) (sk : Bool)
    (t : ATask) (node : NodeId) (tid : String) (r : ATask)
    (h : placed_get pm node tid = some r) (hr : r.type ≠ "skipped") :
    ∃ r', placed_get (TasksSerializer.place_astute_task pm sk t) node tid =
      some r' ∧ r'.type ≠ "skipped" := by
  unfold TasksSerializer.place_astute_task
  exact place_fold_preserves _ _ pm node tid r h hr

theorem place_records_fold_preserves (sk : Bool) :
    ∀ (ts : List ATask) (pm : PlacementMap) (node : NodeId) (tid : String)
      (r : ATask), placed_get pm node tid = some r → r.type ≠ "skipped" →
      ∃ r', placed_get
        (ts.foldl (fun pm t => TasksSerializer.place_astute_task pm sk t) pm)
        node tid = some r' ∧ r'.type ≠ "skipped"
  | [], pm, node, tid, r, h, hr => ⟨r, h, hr⟩
  | t :: rest, pm, node, tid, r, h, hr => by
      obtain ⟨r', h', hr'⟩ := place_astute_task_preserves pm sk t node tid r
        h hr
      exact place_records_fold_preserves sk rest _ node tid r' h' hr'

theorem process_task_preserves (env : Env) (s : TasksSerializer)
    (task : CTask) (resolver : Resolver) (skip : Bool)
    (s' : TasksSerializer) (task' : CTask)
    (h : TasksSerializer.process_task env s task resolver skip =
      .ok (s', task'))
    (node : NodeId) (tid : String) (r : ATask)
    (hplaced : placed_get s.tasks_per_node node tid = some r)
    (hr : r.type ≠ "skipped") :
    ∃ r', placed_get s'.tasks_per_node node tid = some r' ∧
      r'.type ≠ "skipped" := by
  unfold TasksSerializer.process_task at h
  cases hpt : TaskProcessor.process_tasks s.task_processor
      (TasksSerializer.popped_view task skip)
      (serializer_serialize env (TasksSerializer.popped_view task skip)
        resolver) with
  | error e =>
      rw [hpt] at h
      exact absurd h (by simp)
  | ok p =>
      obtain ⟨astute_tasks, tp'⟩ := p
      rw [hpt] at h
      simp only [Except.ok.injEq, Prod.mk.injEq] at h
      obtain ⟨hs, -⟩ := h
      rw [← hs]
      exact place_records_fold_preserves _ astute_tasks _ node tid r hplaced
        hr

theorem expand_group_members_preserves (env : Env) :
    ∀ (subs : List String) (s : TasksSerializer) (sk : Bool)
      (node_ids : List NodeId) (m : List (String × CTask))
      (s' : TasksSerializer) (m' : List (String × CTask)),
      TasksSerializer.expand_group_members env s sk node_ids subs m =
        .ok (s', m') →
      ∀ (node : NodeId) (tid : String) (r : ATask),
        placed_get s.tasks_per_node node tid = some r → r.type ≠ "skipped" →
        ∃ r', placed_get s'.tasks_per_node node tid = some r' ∧
          r'.type ≠ "skipped" := by
  intro subs
  induction subs with
  | nil =>
      intro s sk node_ids m s' m' h node tid r hp hr
      simp only [TasksSerializer.expand_group_members, Except.ok.injEq,
        Prod.mk.injEq] at h
      rw [← h.1]
      exact ⟨r, hp, hr⟩
  | cons sub rest ih =>
      intro s sk node_ids m s' m' h node tid r hp hr
      unfold TasksSerializer.expand_group_members at h
      cases hm : alGet m sub with
      | none => rw [hm] at h; exact absurd h (by simp)
      | some sub_task =>
          rw [hm] at h
          simp only [] at h
          cases hpt : TasksSerializer.process_task env s sub_task
              (NullResolver node_ids) (sk && !s.task_filter sub) with
          | error e => rw [hpt] at h; exact absurd h (by simp)
          | ok p =>
              obtain ⟨s1, sub'⟩ := p
              rw [hpt] at h
              obtain ⟨r1, hp1, hr1⟩ := process_task_preserves env s sub_task
                (NullResolver node_ids) (sk && !s.task_filter sub) s1 sub'
                hpt node tid r hp hr
              exact ih s1 sk node_ids (alSet m sub sub') s' m' h node tid r1
                hp1 hr1

theorem expand_task_groups_preserves (env : Env) :
    ∀ (groups : List CTask) (s : TasksSerializer)
      (m : List (String × CTask)) (s' : TasksSerializer)
      (m' : List (String × CTask)),
      TasksSerializer.expand_task_groups env s groups m = .ok (s', m') →
      ∀ (node : NodeId) (tid : String) (r : ATask),
        placed_get s.tasks_per_node node tid = some r → r.type ≠ "skipped" →
        ∃ r', placed_get s'.tasks_per_node node tid = some r' ∧
          r'.type ≠ "skipped" := by
  intro groups
  induction groups with
  | nil =>
      intro s m s' m' h node tid r hp hr
      simp only [TasksSerializer.expand_task_groups, Except.ok.injEq,
        Prod.mk.injEq] at h
      rw [← h.1]
      exact ⟨r, hp, hr⟩
  | cons g rest ih =>
      intro s m s' m' h node tid r hp hr
      unfold TasksSerializer.expand_task_groups at h
      cases hgm : TasksSerializer.expand_group_members env s
          (!s.task_filter g.id)
          (s.role_resolver (g.role.getD (.list [])) .all)
          (g.tasks.getD []) m with
      | error e => rw [hgm] at h; exact absurd h (by simp)
      | ok p =>
          obtain ⟨s1, m1⟩ := p
          rw [hgm] at h
          obtain ⟨r1, hp1, hr1⟩ := expand_group_members_preserves env
            (g.tasks.getD []) s (!s.task_filter g.id)
            (s.role_resolver (g.role.getD (.list [])) .all) m s1 m1 hgm
            node tid r hp hr
          exact ih s1 m1 s' m' h node tid r1 hp1 hr1

theorem placed_get_bucket (pm : PlacementMap) (node : NodeId) (tid : String)
    (r : ATask) (h : placed_get pm node tid = some r) :
    ∃ b, alGet pm node = some b ∧ alGet b tid = some r := by
  unfold placed_get at h
  cases hb : alGet pm node with
  | none =>
      rw [hb] at h
      simp [alGet] at h
  | some b =>
      rw [hb] at h
      exact ⟨b, rfl, by simpa using h⟩

/-- **C5**: if after the partition pass of `resolve_nodes` (which
processes every direct catalog reference, placing a non-skipped record
for a task matching the task filter) the pair `(node, task-id)` holds a
record with non-skipped type, then after group expansion — including any
group excluded by the task filter that places the same pair with type
`skipped` — and the null-bucket setdefault, the final record stored for
that pair still has a non-skipped type. -/
theorem claim_C5 (env : Env) (s0 sf s1 : TasksSerializer)
    (tasks : List CTask) (m : List (String × CTask)) (groups : List CTask)
    (node : NodeId) (tid : String) (r : ATask)
    (hloop : TasksSerializer.resolve_nodes_loop env s0 tasks [] [] =
      .ok (s1, m, groups))
    (hrn : TasksSerializer.resolve_nodes env s0 tasks = .ok sf)
    (hplaced : placed_get s1.tasks_per_node node tid = some r)
    (hr : r.type ≠ "skipped") :
    ∃ r', placed_get sf.tasks_per_node node tid = some r' ∧
      r'.type ≠ "skipped" := by
  unfold TasksSerializer.resolve_nodes at hrn
  rw [hloop] at hrn
  simp only [] at hrn
  cases hexp : TasksSerializer.expand_task_groups env s1 groups m with
  | error e =>
      rw [hexp] at hrn
      exact absurd hrn (by simp)
  | ok p =>
      obtain ⟨s2, m2⟩ := p
      rw [hexp] at hrn
      simp only [] at hrn
      obtain ⟨r2, hp2, hr2⟩ := expand_task_groups_preserves env groups s1 m
        s2 m2 hexp node tid r hplaced hr
      cases hnull : alGet s2.tasks_per_node none with
      | some b =>
          rw [hnull] at hrn
          simp only [Except.ok.injEq] at hrn
          rw [← hrn]
          exact ⟨r2, hp2, hr2⟩
      | none =>
          rw [hnull] at hrn
          simp only [Except.ok.injEq] at hrn
          rw [← hrn]
          obtain ⟨b, hb, hbt⟩ := placed_get_bucket _ node tid r2 hp2
          refine ⟨r2, ?_, hr2⟩
          unfold placed_get
          rw [alGet_append_left _ _ _ _ hb]
          simpa using hbt

/-- **C5** (witness): the theorem applied to the concrete run where the
direct reference `t1` matches the filter and the group `g` does not. -/
theorem claim_C5_witness :
    ∃ r', placed_get c5_final.tasks_per_node (some "n1") "t1" = some r' ∧
      r'.type ≠ "skipped" :=
  claim_C5 c5_env c5_s0 c5_final c5_loop.1 c5_tasks c5_loop.2.1 c5_loop.2.2
    (some "n1") "t1" { id := "t1", type := "puppet" } rfl rfl rfl (by decide)

/-! ### Classification of group expansion errors -/

theorem ensure_error_eq (task : CTask) (e : DeployError)
    (h : TaskProcessor.ensure_task_based_deploy_allowed task = .error e) :
    e = .taskBaseDeploymentNotAllowed := by
  unfold TaskProcessor.ensure_task_based_deploy_allowed at h
  by_cases h1 : task.type = "stage"
  · rw [if_pos h1] at h
    exact absurd h (by simp)
  · rw [if_neg h1] at h
    by_cases h2 : versionLt (parseVersion (task.version.getD "1.0.0"))
      TaskProcessor.min_supported_task_version = true
    · rw [if_pos h2] at h
      simpa using h.symm
    · rw [if_neg h2] at h
      exact absurd h (by simp)

theorem process_tasks_error (tp : TaskProcessor) (task : CTask)
    (ser : List ATask) (e : DeployError)
    (h : TaskProcessor.process_tasks tp task ser = .error e) :
    e = .taskBaseDeploymentNotAllowed := by
  match ser with
  | [] => exact absurd h (by simp [TaskProcessor.process_tasks])
  | [t] =>
      cases hg : TaskProcessor.ensure_task_based_deploy_allowed task with
      | error e' =>
          have := ensure_error_eq task e' hg
          subst this
          simp [TaskProcessor.process_tasks, hg] at h
          simp [h]
      | ok u => simp [TaskProcessor.process_tasks, hg] at h
  | t0 :: t1 :: rest =>
      cases hg : TaskProcessor.ensure_task_based_deploy_allowed task with
      | error e' =>
          have := ensure_error_eq task e' hg
          subst this
          simp [TaskProcessor.process_tasks, hg] at h
          simp [h]
      | ok u => simp [TaskProcessor.process_tasks, hg] at h

theorem process_task_error (env : Env) (s : TasksSerializer) (task : CTask)
    (resolver : Resolver) (skip : Bool) (e : DeployError)
    (h : TasksSerializer.process_task env s task resolver skip = .error e) :
    e = .taskBaseDeploymentNotAllowed := by
  unfold TasksSerializer.process_task at h
  cases hpt : TaskProcessor.process_tasks s.task_processor
      (TasksSerializer.popped_view task skip)
      (serializer_serialize env (TasksSerializer.popped_view task skip)
        resolver) with
  | error e' =>
      rw [hpt] at h
      simp only [Except.error.injEq] at h
      rw [← h]
      exact process_tasks_error _ _ _ _ hpt
  | ok p =>
      obtain ⟨a, b⟩ := p
      rw [hpt] at h
      exact absurd h (by simp)

theorem alSet_none_backward [DecidableEq α] (m : List (α × β)) (k sid : α)
    (v : β) (h : alGet (alSet m k v) sid = none) : alGet m sid = none := by
  by_cases hk : k = sid
  · subst hk
    rw [alGet_alSet_self] at h
    exact absurd h (by simp)
  · rwa [alGet_alSet_ne _ _ _ _ hk] at h

theorem alSet_none_forward [DecidableEq α] (m : List (α × β)) (k sid : α)
    (v w : β) (hnone : alGet m sid = none) (hk : alGet m k = some w) :
    alGet (alSet m k v) sid = none := by
  have hne : k ≠ sid := by
    intro hc
    subst hc
    rw [hk] at hnone
    exact absurd hnone (by simp)
  rwa [alGet_alSet_ne _ _ _ _ hne]

theorem expand_group_members_none_forward (env : Env) (sid : String) :
    ∀ (subs : List String) (s : TasksSerializer) (sk : Bool)
      (ids : List NodeId) (m : List (String × CTask))
      (s' : TasksSerializer) (m' : List (String × CTask)),
      TasksSerializer.expand_group_members env s sk ids subs m =
        .ok (s', m') →
      alGet m sid = none → alGet m' sid = none := by
  intro subs
  induction subs with
  | nil =>
      intro s sk ids m s' m' h hn
      simp only [TasksSerializer.expand_group_members, Except.ok.injEq,
        Prod.mk.injEq] at h
      rw [← h.2]
      exact hn
  | cons sub rest ih =>
      intro s sk ids m s' m' h hn
      unfold TasksSerializer.expand_group_members at h
      cases hm : alGet m sub with
      | none => rw [hm] at h; exact absurd h (by simp)
      | some sub_task =>
          rw [hm] at h
          simp only [] at h
          cases hpt : TasksSerializer.process_task env s sub_task
              (NullResolver ids) (sk && !s.task_filter sub) with
          | error e => rw [hpt] at h; exact absurd h (by simp)
          | ok p =>
              obtain ⟨s1, sub'⟩ := p
              rw [hpt] at h
              exact ih s1 sk ids (alSet m sub sub') s' m' h
                (alSet_none_forward m sub sid sub' sub_task hn hm)

theorem expand_group_members_not_ok (env : Env) (sid : String) :
    ∀ (subs : List String) (s : TasksSerializer) (sk : Bool)
      (ids : List NodeId) (m : List (String × CTask)),
      sid ∈ subs → alGet m sid = none →
      ∀ p, TasksSerializer.expand_group_members env s sk ids subs m ≠
        .ok p := by
  intro subs
  induction subs with
  | nil =>
      intro s sk ids m hmem
      simp at hmem
  | cons sub rest ih =>
      intro s sk ids m hmem hnone p h
      unfold TasksSerializer.expand_group_members at h
      cases hm : alGet m sub with
      | none => rw [hm] at h; exact absurd h (by simp)
      | some sub_task =>
          have hne : sub ≠ sid := by
            intro hc
            subst hc
            rw [hm] at hnone
            exact absurd hnone (by simp)
          have hrest : sid ∈ rest := by
            rcases List.mem_cons.mp hmem with hc | hc
            · exact absurd hc.symm hne
            · exact hc
          rw [hm] at h
          simp only [] at h
          cases hpt : TasksSerializer.process_task env s sub_task
              (NullResolver ids) (sk && !s.task_filter sub) with
          | error e => rw [hpt] at h; exact absurd h (by simp)
          | ok q =>
              obtain ⟨s1, sub'⟩ := q
              rw [hpt] at h
              exact ih s1 sk ids (alSet m sub sub') hrest
                (by rwa [alGet_alSet_ne _ _ _ _ hne]) p h

theorem expand_group_members_invalid (env : Env) (sid : String) :
    ∀ (subs : List String) (s : TasksSerializer) (sk : Bool)
      (ids : List NodeId) (m : List (String × CTask)),
      TasksSerializer.expand_group_members env s sk ids subs m =
        .error (.invalidData sid) →
      sid ∈ subs ∧ alGet m sid = none := by
  intro subs
  induction subs with
  | nil =>
      intro s sk ids m h
      simp [TasksSerializer.expand_group_members] at h
  | cons sub rest ih =>
      intro s sk ids m h
      unfold TasksSerializer.expand_group_members at h
      cases hm : alGet m sub with
      | none =>
          rw [hm] at h
          simp only [Except.error.injEq, DeployError.invalidData.injEq] at h
          rw [← h]
          exact ⟨List.mem_cons_self _ _, hm⟩
      | some sub_task =>
          rw [hm] at h
          simp only [] at h
          cases hpt : TasksSerializer.process_task env s sub_task
              (NullResolver ids) (sk && !s.task_filter sub) with
          | error e =>
              rw [hpt] at h
              simp only [Except.error.injEq] at h
              have := process_task_error env s sub_task (NullResolver ids)
                (sk && !s.task_filter sub) e hpt
              rw [this] at h
              exact absurd h (by simp)
          | ok q =>
              obtain ⟨s1, sub'⟩ := q
              rw [hpt] at h
              obtain ⟨hmem, hnone⟩ := ih s1 sk ids (alSet m sub sub') h
              exact ⟨List.mem_cons_of_mem _ hmem,
                alSet_none_backward m sub sid sub' hnone⟩

theorem expand_group_members_none_backward (env : Env) (sid : String) :
    ∀ (subs : List String) (s : TasksSerializer) (sk : Bool)
      (ids : List NodeId) (m : List (String × CTask))
      (s' : TasksSerializer) (m' : List (String × CTask)),
      TasksSerializer.expand_group_members env s sk ids subs m =
        .ok (s', m') →
      alGet m' sid = none → alGet m sid = none := by
  intro subs
  induction subs with
  | nil =>
      intro s sk ids m s' m' h hn
      simp only [TasksSerializer.expand_group_members, Except.ok.injEq,
        Prod.mk.injEq] at h
      rw [h.2]
      exact hn
  | cons sub rest ih =>
      intro s sk ids m s' m' h hn
      unfold TasksSerializer.expand_group_members at h
      cases hm : alGet m sub with
      | none => rw [hm] at h; exact absurd h (by simp)
      | some sub_task =>
          rw [hm] at h
          simp only [] at h
          cases hpt : TasksSerializer.process_task env s sub_task
              (NullResolver ids) (sk && !s.task_filter sub) with
          | error e => rw [hpt] at h; exact absurd h (by simp)
          | ok p =>
              obtain ⟨s1, sub'⟩ := p
              rw [hpt] at h
              exact alSet_none_backward m sub sid sub'
                (ih s1 sk ids (alSet m sub sub') s' m' h hn)

theorem expand_task_groups_not_ok (env : Env) (sid : String) :
    ∀ (groups : List CTask) (s : TasksSerializer)
      (m : List (String × CTask)),
      (∃ g ∈ groups, sid ∈ g.tasks.getD []) → alGet m sid = none →
      ∀ p, TasksSerializer.expand_task_groups env s groups m ≠ .ok p := by
  intro groups
  induction groups with
  | nil =>
      intro s m hex
      simp at hex
  | cons g rest ih =>
      intro s m hex hnone p h
      unfold TasksSerializer.expand_task_groups at h
      cases hgm : TasksSerializer.expand_group_members env s
          (!s.task_filter g.id)
          (s.role_resolver (g.role.getD (.list [])) .all)
          (g.tasks.getD []) m with
      | error e => rw [hgm] at h; exact absurd h (by simp)
      | ok q =>
          obtain ⟨s1, m1⟩ := q
          rw [hgm] at h
          obtain ⟨g', hg', hsid⟩ := hex
          rcases List.mem_cons.mp hg' with hc | hc
          · subst hc
            exact expand_group_members_not_ok env sid (g'.tasks.getD []) s
              (!s.task_filter g'.id)
              (s.role_resolver (g'.role.getD (.list [])) .all) m hsid hnone
              (s1, m1) hgm
          · exact ih s1 m1 ⟨g', hc, hsid⟩
              (expand_group_members_none_forward env sid (g.tasks.getD []) s
                (!s.task_filter g.id)
                (s.role_resolver (g.role.getD (.list [])) .all) m s1 m1 hgm
                hnone) p h

theorem expand_task_groups_invalid (env : Env) (sid : String) :
    ∀ (groups : List CTask) (s : TasksSerializer)
      (m : List (String × CTask)),
      TasksSerializer.expand_task_groups env s groups m =
        .error (.invalidData sid) →
      ∃ g ∈ groups, sid ∈ g.tasks.getD [] ∧ alGet m sid = none := by
  intro groups
  induction groups with
  | nil =>
      intro s m h
      simp [TasksSerializer.expand_task_groups] at h
  | cons g rest ih =>
      intro s m h
      unfold TasksSerializer.expand_task_groups at h
      cases hgm : TasksSerializer.expand_group_members env s
          (!s.task_filter g.id)
          (s.role_resolver (g.role.getD (.list [])) .all)
          (g.tasks.getD []) m with
      | error e =>
          rw [hgm] at h
          simp only [Except.error.injEq] at h
          rw [h] at hgm
          obtain ⟨hmem, hnone⟩ := expand_group_members_invalid env sid
            (g.tasks.getD []) s (!s.task_filter g.id)
            (s.role_resolver (g.role.getD (.list [])) .all) m hgm
          exact ⟨g, List.mem_cons_self _ _, hmem, hnone⟩
      | ok q =>
          obtain ⟨s1, m1⟩ := q
          rw [hgm] at h
          obtain ⟨g', hg', hmem, hnone⟩ := ih s1 m1 h
          exact ⟨g', List.mem_cons_of_mem _ hg', hmem,
            expand_group_members_none_backward env sid (g.tasks.getD []) s
              (!s.task_filter g.id)
              (s.role_resolver (g.role.getD (.list [])) .all) m s1 m1 hgm
              hnone⟩

/-- **C9**: a `group` task referencing a sub-task id not present among the
non-group catalog tasks (the task mapping) makes group expansion fail; an
`InvalidData` (UnknownGroupMember) failure always identifies such an
offending sub-task id; and when every group references only known ids,
this error is never raised. -/
theorem claim_C9 (env : Env) :
    (∀ (groups : List CTask) (s : TasksSerializer)
      (m : List (String × CTask)) (g : CTask) (sid : String),
      g ∈ groups → sid ∈ g.tasks.getD [] → alGet m sid = none →
      ∀ p, TasksSerializer.expand_task_groups env s groups m ≠ .ok p) ∧
    (∀ (groups : List CTask) (s : TasksSerializer)
      (m : List (String × CTask)) (sid : String),
      TasksSerializer.expand_task_groups env s groups m =
        .error (.invalidData sid) →
      ∃ g ∈ groups, sid ∈ g.tasks.getD [] ∧ alGet m sid = none) ∧
    (∀ (groups : List CTask) (s : TasksSerializer)
      (m : List (String × CTask)) (s' : TasksSerializer)
      (m' : List (String × CTask)),
      TasksSerializer.expand_task_groups env s groups m = .ok (s', m') →
      ∀ g ∈ groups, ∀ sid ∈ g.tasks.getD [], (alGet m sid).isSome) := by
  refine ⟨?_, ?_, ?_⟩
  · intro groups s m g sid hg hsid hnone
    exact expand_task_groups_not_ok env sid groups s m ⟨g, hg, hsid⟩ hnone
  · intro groups s m sid h
    exact expand_task_groups_invalid env sid groups s m h
  · intro groups s m s' m' h g hg sid hsid
    by_contra hc
    have hnone : alGet m sid = none := by
      cases halg : alGet m sid with
      | none => rfl
      | some v => rw [halg] at hc; exact absurd rfl hc
    exact expand_task_groups_not_ok env sid groups s m ⟨g, hg, hsid⟩ hnone
      (s', m') h

/-! ### Presence of placed keys -/

theorem stored_record_id (sk : Bool) (t : ATask) :
    (TasksSerializer.stored_record sk t).id = t.id := by
  unfold TasksSerializer.stored_record
  split <;> rfl

theorem stored_record_uids (sk : Bool) (t : ATask) :
    (TasksSerializer.stored_record sk t).uids = none := by
  unfold TasksSerializer.stored_record
  split <;> rfl

theorem popped_view_type (task : CTask) (skip : Bool) :
    (TasksSerializer.popped_view task skip).type = task.type := by
  unfold TasksSerializer.popped_view
  split <;> rfl

theorem popped_view_id (task : CTask) (skip : Bool) :
    (TasksSerializer.popped_view task skip).id = task.id := by
  unfold TasksSerializer.popped_view
  split <;> rfl

theorem popped_view_groups (task : CTask) (skip : Bool) :
    (TasksSerializer.popped_view task skip).groups = task.groups := by
  unfold TasksSerializer.popped_view
  split <;> rfl

theorem popped_view_role (task : CTask) (skip : Bool) :
    (TasksSerializer.popped_view task skip).role = task.role := by
  unfold TasksSerializer.popped_view
  split <;> rfl

/-- The keys of the bucket of one node of a placement map. -/
theorem place_on_node_key_present (pm : PlacementMap) (t1 : ATask)
    (u : NodeId) :
    t1.id ∈ ((alGet (TasksSerializer.place_on_node pm t1 u) u).getD []).map
      Prod.fst := by
  unfold TasksSerializer.place_on_node
  by_cases hupd : TasksSerializer.need_update_task ((alGet pm u).getD []) t1
  · rw [if_pos hupd, alGet_alSet_self]
    exact alSet_key_mem _ _ _
  · rw [if_neg hupd]
    unfold TasksSerializer.need_update_task at hupd
    cases halg : alGet ((alGet pm u).getD []) t1.id with
    | none => rw [halg] at hupd; exact absurd rfl hupd
    | some e =>
        exact key_mem_of_alGet_isSome _ _ (by simp [halg])

theorem place_on_node_key_mono (pm : PlacementMap) (t1 : ATask)
    (u node : NodeId) (k : String)
    (h : k ∈ ((alGet pm node).getD []).map Prod.fst) :
    k ∈ ((alGet (TasksSerializer.place_on_node pm t1 u) node).getD []).map
      Prod.fst := by
  unfold TasksSerializer.place_on_node
  by_cases hupd : TasksSerializer.need_update_task ((alGet pm u).getD []) t1
  · rw [if_pos hupd]
    by_cases hu : u = node
    · subst hu
      rw [alGet_alSet_self]
      exact alSet_keys_mem _ _ _ _ h
    · rw [alGet_alSet_ne _ _ _ _ hu]
      exact h
  · rw [if_neg hupd]
    exact h

theorem place_fold_key_mono (t1 : ATask) :
    ∀ (l : List NodeId) (pm : PlacementMap) (node : NodeId) (k : String),
      k ∈ ((alGet pm node).getD []).map Prod.fst →
      k ∈ ((alGet (l.foldl
        (fun pm u => TasksSerializer.place_on_node pm t1 u) pm) node).getD
          []).map Prod.fst
  | [], _, _, _, h => h
  | u :: rest, pm, node, k, h =>
      place_fold_key_mono t1 rest _ node k
        (place_on_node_key_mono pm t1 u node k h)

theorem place_fold_key_present (t1 : ATask) :
    ∀ (l : List NodeId) (pm : PlacementMap) (u : NodeId), u ∈ l →
      t1.id ∈ ((alGet (l.foldl
        (fun pm u => TasksSerializer.place_on_node pm t1 u) pm) u).getD
          []).map Prod.fst := by
  intro l
  induction l with
  | nil => intro pm u h; simp at h
  | cons v rest ih =>
      intro pm u h
      rcases List.mem_cons.mp h with hc | hc
      · subst hc
        exact place_fold_key_mono t1 rest _ u t1.id
          (place_on_node_key_present pm t1 u)
      · exact ih _ u hc

theorem place_astute_task_key_present (pm : PlacementMap) (sk : Bool)
    (t : ATask) (u : NodeId) (h : u ∈ t.uids.getD []) :
    t.id ∈ ((alGet (TasksSerializer.place_astute_task pm sk t) u).getD
      []).map Prod.fst := by
  unfold TasksSerializer.place_astute_task
  have := place_fold_key_present (TasksSerializer.stored_record sk t)
    (t.uids.getD []) pm u h
  rwa [stored_record_id] at this

theorem place_astute_task_key_mono (pm : PlacementMap) (sk : Bool)
    (t : ATask) (node : NodeId) (k : String)
    (h : k ∈ ((alGet pm node).getD []).map Prod.fst) :
    k ∈ ((alGet (TasksSerializer.place_astute_task pm sk t) node).getD
      []).map Prod.fst := by
  unfold TasksSerializer.place_astute_task
  exact place_fold_key_mono _ _ pm node k h

/-! ### Invariants for the ex-entry validity proof -/

theorem stored_record_requires_ex (sk : Bool) (t : ATask) :
    (TasksSerializer.stored_record sk t).requires_ex = t.requires_ex := by
  unfold TasksSerializer.stored_record
  split <;> rfl

theorem stored_record_required_for_ex (sk : Bool) (t : ATask) :
    (TasksSerializer.stored_record sk t).required_for_ex =
      t.required_for_ex := by
  unfold TasksSerializer.stored_record
  split <;> rfl

theorem rel_placed_place_on_node (pm : PlacementMap) (t1 : ATask)
    (u : NodeId) (r : Rel) (h : rel_placed pm r) :
    rel_placed (TasksSerializer.place_on_node pm t1 u) r :=
  place_on_node_key_mono pm t1 u r.node_id r.name h

theorem rel_placed_place_astute (pm : PlacementMap) (sk : Bool) (t : ATask)
    (r : Rel) (h : rel_placed pm r) :
    rel_placed (TasksSerializer.place_astute_task pm sk t) r :=
  place_astute_task_key_mono pm sk t r.node_id r.name h

/-- Membership in a bucket after `place_on_node`: either the new record
under its id on the target node, or an entry already present. -/
theorem place_on_node_mem (pm : PlacementMap) (t1 : ATask) (u node : NodeId)
    (b' : Bucket)
    (hb' : alGet (TasksSerializer.place_on_node pm t1 u) node = some b') :
    ∀ kt ∈ b', kt = (t1.id, t1) ∨
      ∃ b, alGet pm node = some b ∧ kt ∈ b := by
  intro kt hkt
  unfold TasksSerializer.place_on_node at hb'
  by_cases hupd : TasksSerializer.need_update_task ((alGet pm u).getD []) t1
  · rw [if_pos hupd] at hb'
    by_cases hu : u = node
    · subst hu
      rw [alGet_alSet_self] at hb'
      simp only [Option.some.injEq] at hb'
      rw [← hb'] at hkt
      rcases alSet_mem _ _ _ kt hkt with h | h
      · exact Or.inl h
      · cases hold : alGet pm u with
        | none =>
            rw [hold] at h
            simp at h
        | some b =>
            rw [hold] at h
            exact Or.inr ⟨b, rfl, by simpa using h⟩
    · rw [alGet_alSet_ne _ _ _ _ hu] at hb'
      exact Or.inr ⟨b', hb', hkt⟩
  · rw [if_neg hupd] at hb'
    exact Or.inr ⟨b', hb', hkt⟩

theorem pm_keys_match_place_on_node (pm : PlacementMap) (t1 : ATask)
    (u : NodeId) (h : pm_keys_match pm) :
    pm_keys_match (TasksSerializer.place_on_node pm t1 u) := by
  intro node b' hb' kt hkt
  rcases place_on_node_mem pm t1 u node b' hb' kt hkt with hc | ⟨b, hb, hin⟩
  · rw [hc]
  · exact h node b hb kt hin

theorem pm_ex_ok_place_on_node (pm : PlacementMap) (t1 : ATask) (u : NodeId)
    (h : pm_ex_ok pm)
    (ht1 : (∀ r ∈ t1.requires_ex.getD [], rel_placed pm r) ∧
           (∀ r ∈ t1.required_for_ex.getD [], rel_placed pm r)) :
    pm_ex_ok (TasksSerializer.place_on_node pm t1 u) := by
  intro node b' hb' kt hkt
  rcases place_on_node_mem pm t1 u node b' hb' kt hkt with hc | ⟨b, hb, hin⟩
  · rw [hc]
    exact ⟨fun r hr => rel_placed_place_on_node pm t1 u r (ht1.1 r hr),
           fun r hr => rel_placed_place_on_node pm t1 u r (ht1.2 r hr)⟩
  · obtain ⟨h1, h2⟩ := h node b hb kt hin
    exact ⟨fun r hr => rel_placed_place_on_node pm t1 u r (h1 r hr),
           fun r hr => rel_placed_place_on_node pm t1 u r (h2 r hr)⟩

theorem pm_invs_place_fold (t1 : ATask) :
    ∀ (l : List NodeId) (pm : PlacementMap),
      pm_keys_match pm → pm_ex_ok pm →
      (∀ r ∈ t1.requires_ex.getD [], rel_placed pm r) →
      (∀ r ∈ t1.required_for_ex.getD [], rel_placed pm r) →
      pm_keys_match (l.foldl
        (fun pm u => TasksSerializer.place_on_node pm t1 u) pm) ∧
      pm_ex_ok (l.foldl
        (fun pm u => TasksSerializer.place_on_node pm t1 u) pm)
  | [], _, hk, he, _, _ => ⟨hk, he⟩
  | u :: rest, pm, hk, he, h1, h2 =>
      pm_invs_place_fold t1 rest (TasksSerializer.place_on_node pm t1 u)
        (pm_keys_match_place_on_node pm t1 u hk)
        (pm_ex_ok_place_on_node pm t1 u he ⟨h1, h2⟩)
        (fun r hr => rel_placed_place_on_node pm t1 u r (h1 r hr))
        (fun r hr => rel_placed_place_on_node pm t1 u r (h2 r hr))

theorem pm_invs_place_astute (pm : PlacementMap) (sk : Bool) (t : ATask)
    (hk : pm_keys_match pm) (he : pm_ex_ok pm)
    (h1 : ∀ r ∈ t.requires_ex.getD [], rel_placed pm r)
    (h2 : ∀ r ∈ t.required_for_ex.getD [], rel_placed pm r) :
    pm_keys_match (TasksSerializer.place_astute_task pm sk t) ∧
    pm_ex_ok (TasksSerializer.place_astute_task pm sk t) := by
  unfold TasksSerializer.place_astute_task
  exact pm_invs_place_fold _ _ pm hk he
    (by rw [stored_record_requires_ex]; exact h1)
    (by rw [stored_record_required_for_ex]; exact h2)

/-- The chain loop's output records carry the wiring-shaped ex fields when
the serializer-emitted inputs carry none. -/
theorem process_chain_ex (origin : CTask) :
    ∀ (ins : List ATask) (tp : TaskProcessor) (prev : ATask) (n : Nat),
      (∀ r ∈ ins, r.requires_ex = none ∧ r.required_for_ex = none) →
      chain_ex_linked (some prev)
        (TaskProcessor.process_chain tp origin prev n ins).1
  | [], _, _, _, _ => trivial
  | [last], tp, prev, n, hin => by
      obtain ⟨hre, hrf⟩ := hin last (List.mem_cons_self _ _)
      refine ⟨?_, ?_, trivial⟩
      · rw [TaskProcessor.link_tasks_required_for_ex,
          TaskProcessor.convert_last_record_required_for_ex, hrf]
      · by_cases huids : prev.uids =
            (TaskProcessor.convert_last_record last origin).uids
        · rw [TaskProcessor.link_tasks_requires_ex_eq _ _ huids,
            TaskProcessor.convert_last_record_requires_ex, hre]
          exact Or.inl rfl
        · rw [TaskProcessor.link_tasks_requires_ex_ne _ _ huids,
            TaskProcessor.convert_last_record_requires_ex, hre]
          exact Or.inr ⟨prev, rfl, by simp⟩
  | cur :: next :: rest, tp, prev, n, hin => by
      obtain ⟨hre, hrf⟩ := hin cur (List.mem_cons_self _ _)
      have ih := process_chain_ex origin (next :: rest)
        (TaskProcessor.record_origin tp
          (TaskProcessor.get_task_id origin.id n) origin.id)
        (TaskProcessor.link_tasks prev
          (TaskProcessor.convert_chain_record cur origin n)) (n + 1)
        (fun r hr => hin r (List.mem_cons_of_mem _ hr))
      refine ⟨?_, ?_, ih⟩
      · rw [TaskProcessor.link_tasks_required_for_ex,
          TaskProcessor.convert_chain_record_required_for_ex, hrf]
      · by_cases huids : prev.uids =
            (TaskProcessor.convert_chain_record cur origin n).uids
        · rw [TaskProcessor.link_tasks_requires_ex_eq _ _ huids,
            TaskProcessor.convert_chain_record_requires_ex, hre]
          exact Or.inl rfl
        · rw [TaskProcessor.link_tasks_requires_ex_ne _ _ huids,
            TaskProcessor.convert_chain_record_requires_ex, hre]
          exact Or.inr ⟨prev, rfl, by simp⟩

/-- Successful `process_tasks` output has the wiring-shaped ex fields. -/
theorem process_tasks_ex (tp : TaskProcessor) (origin : CTask)
    (ser ys : List ATask) (tp' : TaskProcessor)
    (h : TaskProcessor.process_tasks tp origin ser = .ok (ys, tp'))
    (hin : ∀ r ∈ ser, r.requires_ex = none ∧ r.required_for_ex = none) :
    chain_ex_linked none ys := by
  match ser with
  | [] =>
      simp only [TaskProcessor.process_tasks, Except.ok.injEq,
        Prod.mk.injEq] at h
      rw [← h.1]
      trivial
  | [t] =>
      cases hg : TaskProcessor.ensure_task_based_deploy_allowed origin with
      | error e => simp [TaskProcessor.process_tasks, hg] at h
      | ok u =>
          simp only [TaskProcessor.process_tasks, hg, Except.ok.injEq,
            Prod.mk.injEq] at h
          rw [← h.1]
          obtain ⟨hre, hrf⟩ := hin t (List.mem_cons_self _ _)
          refine ⟨?_, Or.inl ?_, trivial⟩
          · rw [TaskProcessor.convert_record_required_for_ex, hrf]
          · rw [TaskProcessor.convert_record_requires_ex, hre]
  | t0 :: t1 :: rest =>
      cases hg : TaskProcessor.ensure_task_based_deploy_allowed origin with
      | error e => simp [TaskProcessor.process_tasks, hg] at h
      | ok u =>
          simp only [TaskProcessor.process_tasks, hg, Except.ok.injEq,
            Prod.mk.injEq] at h
          rw [← h.1]
          obtain ⟨hre, hrf⟩ := hin t0 (List.mem_cons_self _ _)
          refine ⟨?_, Or.inl ?_, ?_⟩
          · unfold TaskProcessor.convert_first_record
            rw [TaskProcessor.convert_record_required_for_ex, hrf]
          · unfold TaskProcessor.convert_first_record
            rw [TaskProcessor.convert_record_requires_ex, hre]
          · exact process_chain_ex origin (t1 :: rest) _ _ 1
              (fun r hr => hin r (List.mem_cons_of_mem _ hr))

/-- Folding the wiring-shaped records into the placement map preserves
both invariants: every record's ex entries name its predecessor, which was
just placed on exactly those nodes. -/
theorem pm_invs_place_records (sk : Bool) :
    ∀ (ts : List ATask) (pm : PlacementMap) (prev : Option ATask),
      pm_keys_match pm → pm_ex_ok pm →
      (∀ p, prev = some p → ∀ u ∈ p.uids.getD [], p.id ∈ keys_of pm u) →
      chain_ex_linked prev ts →
      pm_keys_match (ts.foldl
        (fun pm t => TasksSerializer.place_astute_task pm sk t) pm) ∧
      pm_ex_ok (ts.foldl
        (fun pm t => TasksSerializer.place_astute_task pm sk t) pm)
  | [], pm, prev, hk, he, _, _ => ⟨hk, he⟩
  | t :: rest, pm, prev, hk, he, hprev, hchain => by
      obtain ⟨hrf, hreq, hrest⟩ := hchain
      have h1 : ∀ r ∈ t.requires_ex.getD [], rel_placed pm r := by
        rcases hreq with hnone | ⟨p, hp, hsome⟩
        · rw [hnone]
          intro r hr
          simp at hr
        · rw [hsome]
          intro r hr
          simp only [Option.getD_some] at hr
          obtain ⟨u, hu, rfl⟩ := List.mem_map.mp hr
          exact hprev p hp u hu
      have h2 : ∀ r ∈ t.required_for_ex.getD [], rel_placed pm r := by
        rw [hrf]
        intro r hr
        simp at hr
      obtain ⟨hk', he'⟩ := pm_invs_place_astute pm sk t hk he h1 h2
      refine pm_invs_place_records sk rest _ (some t) hk' he' ?_ hrest
      intro p hp u hu
      obtain rfl : t = p := by simpa using hp
      exact place_astute_task_key_present pm sk t u hu

theorem serializer_serialize_ex_none (env : Env)
    (henv : Env.no_ex_records env) (task : CTask) (resolver : Resolver) :
    ∀ rec ∈ serializer_serialize env task resolver,
      rec.requires_ex = none ∧ rec.required_for_ex = none := by
  intro rec hrec
  unfold serializer_serialize at hrec
  by_cases h1 : (decide (task.type = "skipped") ||
      decide (task.type = "stage")) = true
  · rw [if_pos h1] at hrec
    have : rec = make_noop_task (noop_uids task resolver) task := by
      simpa using hrec
    rw [this]
    exact ⟨rfl, rfl⟩
  · rw [if_neg h1] at hrec
    by_cases h2 : task.type = PLUGIN_PRE_DEPLOYMENT_HOOK
    · rw [if_pos h2] at hrec
      exact henv.2.1 rec hrec
    · rw [if_neg h2] at hrec
      by_cases h3 : task.type = PLUGIN_POST_DEPLOYMENT_HOOK
      · rw [if_pos h3] at hrec
        exact henv.2.2 rec hrec
      · rw [if_neg h3] at hrec
        exact henv.1 task resolver rec hrec

theorem pm_invs_process_task (env : Env) (henv : Env.no_ex_records env)
    (s : TasksSerializer) (task : CTask) (resolver : Resolver) (skip : Bool)
    (s' : TasksSerializer) (task' : CTask)
    (h : TasksSerializer.process_task env s task resolver skip =
      .ok (s', task'))
    (hk : pm_keys_match s.tasks_per_node) (he : pm_ex_ok s.tasks_per_node) :
    pm_keys_match s'.tasks_per_node ∧ pm_ex_ok s'.tasks_per_node := by
  unfold TasksSerializer.process_task at h
  cases hpt : TaskProcessor.process_tasks s.task_processor
      (TasksSerializer.popped_view task skip)
      (serializer_serialize env (TasksSerializer.popped_view task skip)
        resolver) with
  | error e =>
      rw [hpt] at h
      exact absurd h (by simp)
  | ok p =>
      obtain ⟨astute_tasks, tp'⟩ := p
      rw [hpt] at h
      simp only [Except.ok.injEq, Prod.mk.injEq] at h
      obtain ⟨hs, -⟩ := h
      rw [← hs]
      have hchain := process_tasks_ex s.task_processor
        (TasksSerializer.popped_view task skip) _ astute_tasks tp' hpt
        (serializer_serialize_ex_none env henv
          (TasksSerializer.popped_view task skip) resolver)
      exact pm_invs_place_records _ astute_tasks s.tasks_per_node none hk he
        (by intro p hp; exact absurd hp (by simp)) hchain

theorem pm_invs_expand_group_members (env : Env)
    (henv : Env.no_ex_records env) :
    ∀ (subs : List String) (s : TasksSerializer) (sk : Bool)
      (ids : List NodeId) (m : List (String × CTask))
      (s' : TasksSerializer) (m' : List (String × CTask)),
      TasksSerializer.expand_group_members env s sk ids subs m =
        .ok (s', m') →
      pm_keys_match s.tasks_per_node → pm_ex_ok s.tasks_per_node →
      pm_keys_match s'.tasks_per_node ∧ pm_ex_ok s'.tasks_per_node := by
  intro subs
  induction subs with
  | nil =>
      intro s sk ids m s' m' h hk he
      simp only [TasksSerializer.expand_group_members, Except.ok.injEq,
        Prod.mk.injEq] at h
      rw [← h.1]
      exact ⟨hk, he⟩
  | cons sub rest ih =>
      intro s sk ids m s' m' h hk he
      unfold TasksSerializer.expand_group_members at h
      cases hm : alGet m sub with
      | none => rw [hm] at h; exact absurd h (by simp)
      | some sub_task =>
          rw [hm] at h
          simp only [] at h
          cases hpt : TasksSerializer.process_task env s sub_task
              (NullResolver ids) (sk && !s.task_filter sub) with
          | error e => rw [hpt] at h; exact absurd h (by simp)
          | ok p =>
              obtain ⟨s1, sub'⟩ := p
              rw [hpt] at h
              obtain ⟨hk1, he1⟩ := pm_invs_process_task env henv s sub_task
                (NullResolver ids) (sk && !s.task_filter sub) s1 sub' hpt hk
                he
              exact ih s1 sk ids (alSet m sub sub') s' m' h hk1 he1

theorem pm_invs_expand_task_groups (env : Env)
    (henv : Env.no_ex_records env) :
    ∀ (groups : List CTask) (s : TasksSerializer)
      (m : List (String × CTask)) (s' : TasksSerializer)
      (m' : List (String × CTask)),
      TasksSerializer.expand_task_groups env s groups m = .ok (s', m') →
      pm_keys_match s.tasks_per_node → pm_ex_ok s.tasks_per_node →
      pm_keys_match s'.tasks_per_node ∧ pm_ex_ok s'.tasks_per_node := by
  intro groups
  induction groups with
  | nil =>
      intro s m s' m' h hk he
      simp only [TasksSerializer.expand_task_groups, Except.ok.injEq,
        Prod.mk.injEq] at h
      rw [← h.1]
      exact ⟨hk, he⟩
  | cons g rest ih =>
      intro s m s' m' h hk he
      unfold TasksSerializer.expand_task_groups at h
      cases hgm : TasksSerializer.expand_group_members env s
          (!s.task_filter g.id)
          (s.role_resolver (g.role.getD (.list [])) .all)
          (g.tasks.getD []) m with
      | error e => rw [hgm] at h; exact absurd h (by simp)
      | ok q =>
          obtain ⟨s1, m1⟩ := q
          rw [hgm] at h
          obtain ⟨hk1, he1⟩ := pm_invs_expand_group_members env henv
            (g.tasks.getD []) s (!s.task_filter g.id)
            (s.role_resolver (g.role.getD (.list [])) .all) m s1 m1 hgm hk he
          exact ih s1 m1 s' m' h hk1 he1

theorem pm_invs_resolve_nodes_loop (env : Env)
    (henv : Env.no_ex_records env) :
    ∀ (tasks : List CTask) (s : TasksSerializer)
      (m0 : List (String × CTask)) (g0 : List CTask)
      (s' : TasksSerializer) (m' : List (String × CTask))
      (g' : List CTask),
      TasksSerializer.resolve_nodes_loop env s tasks m0 g0 =
        .ok (s', m', g') →
      pm_keys_match s.tasks_per_node → pm_ex_ok s.tasks_per_node →
      pm_keys_match s'.tasks_per_node ∧ pm_ex_ok s'.tasks_per_node := by
  intro tasks
  induction tasks with
  | nil =>
      intro s m0 g0 s' m' g' h hk he
      simp only [TasksSerializer.resolve_nodes_loop, Except.ok.injEq,
        Prod.mk.injEq] at h
      rw [← h.1]
      exact ⟨hk, he⟩
  | cons task rest ih =>
      intro s m0 g0 s' m' g' h hk he
      unfold TasksSerializer.resolve_nodes_loop at h
      by_cases hgroup : task.type = "group"
      · rw [if_pos hgroup] at h
        exact ih s m0 (g0 ++ [task]) s' m' g' h hk he
      · rw [if_neg hgroup] at h
        cases hpt : TasksSerializer.process_task env s task
            (fun sel policy => s.role_resolver sel policy)
            (!s.task_filter task.id) with
        | error e => rw [hpt] at h; exact absurd h (by simp)
        | ok p =>
            obtain ⟨s1, task'⟩ := p
            rw [hpt] at h
            obtain ⟨hk1, he1⟩ := pm_invs_process_task env henv s task
              (fun sel policy => s.role_resolver sel policy)
              (!s.task_filter task.id) s1 task' hpt hk he
            exact ih s1 (alSet m0 task.id task') g0 s' m' g' h hk1 he1

theorem alGet_append_single_cases [DecidableEq α] (l : List (α × β))
    (a : α) (x : β) (k : α) (b : β)
    (h : alGet (l ++ [(a, x)]) k = some b) :
    alGet l k = some b ∨ (alGet l k = none ∧ k = a ∧ b = x) := by
  induction l with
  | nil =>
      simp only [List.nil_append, alGet] at h
      by_cases hk : a = k
      · rw [if_pos hk] at h
        simp only [Option.some.injEq] at h
        exact Or.inr ⟨rfl, hk.symm, h.symm⟩
      · rw [if_neg hk] at h
        exact absurd h (by simp [alGet])
  | cons p rest ih =>
      obtain ⟨y, c⟩ := p
      by_cases hy : y = k
      · simp only [List.cons_append, alGet, if_pos hy] at h ⊢
        exact Or.inl h
      · simp only [List.cons_append, alGet, if_neg hy] at h ⊢
        exact ih h

theorem rel_placed_append_empty (pm : PlacementMap) (r : Rel)
    (h : rel_placed pm r) : rel_placed (pm ++ [(none, [])]) r := by
  unfold rel_placed keys_of at h ⊢
  cases halg : alGet pm r.node_id with
  | none =>
      rw [halg] at h
      simp at h
  | some b =>
      rw [halg] at h
      rw [alGet_append_left _ _ _ _ halg]
      exact h

theorem pm_invs_setdefault (pm : PlacementMap)
    (hk : pm_keys_match pm) (he : pm_ex_ok pm) :
    pm_keys_match (pm ++ [(none, [])]) ∧ pm_ex_ok (pm ++ [(none, [])]) := by
  constructor
  · intro u b hb kt hkt
    rcases alGet_append_single_cases pm none [] u b hb with h | ⟨-, -, rfl⟩
    · exact hk u b h kt hkt
    · simp at hkt
  · intro u b hb kt hkt
    rcases alGet_append_single_cases pm none [] u b hb with h | ⟨-, -, rfl⟩
    · obtain ⟨h1, h2⟩ := he u b h kt hkt
      exact ⟨fun r hr => rel_placed_append_empty pm r (h1 r hr),
             fun r hr => rel_placed_append_empty pm r (h2 r hr)⟩
    · simp at hkt

/-- After a successful `resolve_nodes` run from an empty placement map,
every bucket entry is keyed by its record id and every ex entry names a
placed record. -/
theorem pm_invs_resolve_nodes (env : Env) (henv : Env.no_ex_records env)
    (s : TasksSerializer) (tasks : List CTask) (sf : TasksSerializer)
    (h : TasksSerializer.resolve_nodes env s tasks = .ok sf)
    (hk : pm_keys_match s.tasks_per_node) (he : pm_ex_ok s.tasks_per_node) :
    pm_keys_match sf.tasks_per_node ∧ pm_ex_ok sf.tasks_per_node := by
  unfold TasksSerializer.resolve_nodes at h
  cases hloop : TasksSerializer.resolve_nodes_loop env s tasks [] [] with
  | error e => rw [hloop] at h; exact absurd h (by simp)
  | ok p =>
      obtain ⟨s1, m1, g1⟩ := p
      rw [hloop] at h
      simp only [] at h
      obtain ⟨hk1, he1⟩ := pm_invs_resolve_nodes_loop env henv tasks s [] []
        s1 m1 g1 hloop hk he
      cases hexp : TasksSerializer.expand_task_groups env s1 g1 m1 with
      | error e => rw [hexp] at h; exact absurd h (by simp)
      | ok q =>
          obtain ⟨s2, m2⟩ := q
          rw [hexp] at h
          simp only [] at h
          obtain ⟨hk2, he2⟩ := pm_invs_expand_task_groups env henv g1 s1 m1
            s2 m2 hexp hk1 he1
          cases hnull : alGet s2.tasks_per_node none with
          | some b =>
              rw [hnull] at h
              simp only [Except.ok.injEq] at h
              rw [← h]
              exact ⟨hk2, he2⟩
          | none =>
              rw [hnull] at h
              simp only [Except.ok.injEq] at h
              rw [← h]
              exact pm_invs_setdefault s2.tasks_per_node hk2 he2

/-! ### Names emitted by relation resolution -/

theorem resolve_relation_keys_names (tp : TaskProcessor) (name : String)
    (nid : NodeId) (irf : Bool) (mp : String → Bool) :
    ∀ (keys applied : List String) (r : Rel),
      r ∈ TasksSerializer.resolve_relation_keys tp name nid irf mp keys
        applied →
      r.node_id = nid ∧
      (r.name ∈ keys ∨ ∃ k ∈ keys,
        r.name = TaskProcessor.get_first_task_id (tp.get_origin k) ∨
        r.name = TaskProcessor.get_last_task_id (tp.get_origin k)) := by
  intro keys
  induction keys with
  | nil =>
      intro applied r hr
      simp [TasksSerializer.resolve_relation_keys] at hr
  | cons task_name rest ih =>
      intro applied r hr
      unfold TasksSerializer.resolve_relation_keys at hr
      by_cases hk : task_name = name
      · rw [if_pos hk] at hr
        rcases List.mem_cons.mp hr with hc | hc
        · rw [hc]
          exact ⟨rfl, Or.inl (List.mem_cons_self _ _)⟩
        · obtain ⟨hnode, hrest⟩ := ih applied r hc
          refine ⟨hnode, ?_⟩
          rcases hrest with h | ⟨k, hk', hend⟩
          · exact Or.inl (List.mem_cons_of_mem _ h)
          · exact Or.inr ⟨k, List.mem_cons_of_mem _ hk', hend⟩
      · rw [if_neg hk] at hr
        by_cases hskip :
            (tp.get_origin task_name ∈ applied ||
              !mp (tp.get_origin task_name)) = true
        · rw [if_pos hskip] at hr
          obtain ⟨hnode, hrest⟩ := ih applied r hr
          refine ⟨hnode, ?_⟩
          rcases hrest with h | ⟨k, hk', hend⟩
          · exact Or.inl (List.mem_cons_of_mem _ h)
          · exact Or.inr ⟨k, List.mem_cons_of_mem _ hk', hend⟩
        · rw [if_neg hskip] at hr
          rcases List.mem_cons.mp hr with hc | hc
          · rw [hc]
            refine ⟨rfl, ?_⟩
            by_cases horig : tp.get_origin task_name = task_name
            · rw [if_pos horig]
              exact Or.inl (List.mem_cons_self _ _)
            · rw [if_neg horig]
              cases irf with
              | true =>
                  exact Or.inr ⟨task_name, List.mem_cons_self _ _,
                    Or.inl (by rw [if_pos rfl])⟩
              | false =>
                  exact Or.inr ⟨task_name, List.mem_cons_self _ _,
                    Or.inr (by rw [if_neg (by simp)])⟩
          · obtain ⟨hnode, hrest⟩ := ih _ r hc
            refine ⟨hnode, ?_⟩
            rcases hrest with h | ⟨k, hk', hend⟩
            · exact Or.inl (List.mem_cons_of_mem _ h)
            · exact Or.inr ⟨k, List.mem_cons_of_mem _ hk', hend⟩

theorem resolve_relation_names (s : TasksSerializer) (name : String)
    (node_ids : List NodeId) (irf : Bool) :
    ∀ r ∈ TasksSerializer.resolve_relation s name node_ids irf,
      r.name ∈ keys_of s.tasks_per_node r.node_id ∨
      ∃ k ∈ keys_of s.tasks_per_node r.node_id,
        r.name = TaskProcessor.get_first_task_id
          (s.task_processor.get_origin k) ∨
        r.name = TaskProcessor.get_last_task_id
          (s.task_processor.get_origin k) := by
  intro r hr
  unfold TasksSerializer.resolve_relation at hr
  obtain ⟨nid, hnid, hmem⟩ := List.mem_flatMap.mp hr
  obtain ⟨hnode, hnames⟩ := resolve_relation_keys_names s.task_processor
    name nid irf (nameMatch name) (TasksSerializer.bucket_keys s nid) [] r
    hmem
  rw [hnode]
  exact hnames

/-! ### From placement-map keys to output records -/

theorem materialize_record_id (s : TasksSerializer) (u : NodeId)
    (t : ATask) : (TasksSerializer.materialize_record s u t).id = t.id := rfl

theorem output_alGet (s : TasksSerializer) :
    ∀ (pm : PlacementMap) (u : NodeId),
      alGet (pm.map fun b =>
        (b.1, b.2.map fun kt =>
          TasksSerializer.materialize_record s b.1 kt.2)) u =
      (alGet pm u).map
        (fun bl => bl.map fun kt =>
          TasksSerializer.materialize_record s u kt.2)
  | [], _ => rfl
  | (a, bl) :: rest, u => by
      by_cases ha : a = u
      · subst ha
        simp [alGet]
      · simp [alGet, ha, output_alGet s rest u]

theorem keys_to_output (s : TasksSerializer) (nid : NodeId) (k : String)
    (hkm : pm_keys_match s.tasks_per_node)
    (hk : k ∈ keys_of s.tasks_per_node nid) :
    ∃ recs, alGet (TasksSerializer.output s) nid = some recs ∧
      ∃ ft ∈ recs, ft.id = k := by
  unfold keys_of at hk
  cases halg : alGet s.tasks_per_node nid with
  | none =>
      rw [halg] at hk
      simp at hk
  | some b =>
      rw [halg] at hk
      simp only [Option.getD_some] at hk
      obtain ⟨kt, hkt, hfst⟩ := List.mem_map.mp hk
      refine ⟨b.map fun kt =>
        TasksSerializer.materialize_record s nid kt.2, ?_, ?_⟩
      · unfold TasksSerializer.output
        rw [output_alGet s s.tasks_per_node nid, halg]
        rfl
      · refine ⟨TasksSerializer.materialize_record s nid kt.2,
          List.mem_map_of_mem _ hkt, ?_⟩
        rw [materialize_record_id, ← hkm nid b halg kt hkt]
        exact hfst

theorem rel_target_output (s : TasksSerializer)
    (hkm : pm_keys_match s.tasks_per_node) (rel : Rel)
    (h : rel.name ∈ keys_of s.tasks_per_node rel.node_id ∨
      ∃ k ∈ keys_of s.tasks_per_node rel.node_id,
        rel.name = TaskProcessor.get_first_task_id
          (s.task_processor.get_origin k) ∨
        rel.name = TaskProcessor.get_last_task_id
          (s.task_processor.get_origin k)) :
    (∃ recs, alGet (TasksSerializer.output s) rel.node_id = some recs ∧
      ∃ ft ∈ recs, ft.id = rel.name) ∨
    (∃ recs, alGet (TasksSerializer.output s) rel.node_id = some recs ∧
      ∃ ft ∈ recs,
        rel.name = TaskProcessor.get_first_task_id
          (s.task_processor.get_origin ft.id) ∨
        rel.name = TaskProcessor.get_last_task_id
          (s.task_processor.get_origin ft.id)) := by
  rcases h with h | ⟨k, hkmem, hend⟩
  · exact Or.inl (keys_to_output s rel.node_id rel.name hkm h)
  · obtain ⟨recs, hrecs, ft, hft, hid⟩ :=
      keys_to_output s rel.node_id k hkm hkmem
    refine Or.inr ⟨recs, hrecs, ft, hft, ?_⟩
    rw [hid]
    exact hend

/-- **C4** (amended): for every input on which the serializer completes
without error, provided the external serializers emit records with no
pre-set `requires_ex` / `required_for_ex` keys, every entry
`{name, node_id}` appearing in a returned record's materialized
`requires` or `required_for` list either names a record actually placed
in the output bucket of that `node_id`, or was produced by pattern
resolution of a chain member and carries a chain-endpoint name
`<origin>_start` / `<origin>_end` derived from the origin of a record
placed at that `node_id` (the endpoint itself may be placed on a
different node of the chain, as in the counterexample). -/
theorem claim_C4 (env : Env) (nodes : List Node) (tasks : List CTask)
    (task_ids : Option (List String)) (sf : TasksSerializer)
    (henv : Env.no_ex_records env)
    (hrun : TasksSerializer.run env nodes tasks task_ids = .ok sf) :
    ∀ u recs, alGet (TasksSerializer.output sf) u = some recs →
      ∀ ft ∈ recs, ∀ rel ∈ ft.requires ++ ft.required_for,
        (∃ recs', alGet (TasksSerializer.output sf) rel.node_id =
            some recs' ∧ ∃ ft' ∈ recs', ft'.id = rel.name) ∨
        (∃ recs', alGet (TasksSerializer.output sf) rel.node_id =
            some recs' ∧ ∃ ft' ∈ recs',
          rel.name = TaskProcessor.get_first_task_id
            (sf.task_processor.get_origin ft'.id) ∨
          rel.name = TaskProcessor.get_last_task_id
            (sf.task_processor.get_origin ft'.id)) := by
  have hrn : TasksSerializer.resolve_nodes env
      { nodes := nodes, task_ids := task_ids }
      (tasks ++ deployment_hooks) = .ok sf := hrun
  obtain ⟨hkm, hex⟩ := pm_invs_resolve_nodes env henv
    { nodes := nodes, task_ids := task_ids } (tasks ++ deployment_hooks) sf
    hrn
    (by intro u b hb; simp [alGet] at hb)
    (by intro u b hb; simp [alGet] at hb)
  intro u recs hrecs ft hft rel hrel
  have hout : alGet (TasksSerializer.output sf) u =
      (alGet sf.tasks_per_node u).map
        (fun bl => bl.map fun kt =>
          TasksSerializer.materialize_record sf u kt.2) := by
    unfold TasksSerializer.output
    exact output_alGet sf sf.tasks_per_node u
  rw [hout] at hrecs
  cases halg : alGet sf.tasks_per_node u with
  | none =>
      rw [halg] at hrecs
      simp at hrecs
  | some b =>
      rw [halg] at hrecs
      simp only [Option.map_some', Option.some.injEq] at hrecs
      rw [← hrecs] at hft
      obtain ⟨kt, hkt, hfteq⟩ := List.mem_map.mp hft
      rw [← hfteq] at hrel
      apply rel_target_output sf hkm rel
      obtain ⟨hex1, hex2⟩ := hex u b halg kt hkt
      have hreq_eq : (TasksSerializer.materialize_record sf u kt.2).requires =
          TasksSerializer.expand_dependencies sf u kt.2.requires false ++
          TasksSerializer.expand_cross_dependencies sf u kt.2.cross_depends
            false ++
          kt.2.requires_ex.getD [] := rfl
      have hrf_eq :
          (TasksSerializer.materialize_record sf u kt.2).required_for =
          TasksSerializer.expand_dependencies sf u kt.2.required_for true ++
          TasksSerializer.expand_cross_dependencies sf u
            kt.2.cross_depended_by true ++
          kt.2.required_for_ex.getD [] := rfl
      rcases List.mem_append.mp hrel with hside | hside
      · rw [hreq_eq] at hside
        rcases List.mem_append.mp hside with h1 | h2
        · rcases List.mem_append.mp h1 with ha | hb'
          · unfold TasksSerializer.expand_dependencies at ha
            obtain ⟨nm, -, hmem⟩ := List.mem_flatMap.mp ha
            exact resolve_relation_names sf nm [u, none] false rel hmem
          · unfold TasksSerializer.expand_cross_dependencies at hb'
            obtain ⟨dep, -, hmem⟩ := List.mem_flatMap.mp hb'
            exact resolve_relation_names sf dep.name _ false rel hmem
        · exact Or.inl (hex1 rel h2)
      · rw [hrf_eq] at hside
        rcases List.mem_append.mp hside with h1 | h2
        · rcases List.mem_append.mp h1 with ha | hb'
          · unfold TasksSerializer.expand_dependencies at ha
            obtain ⟨nm, -, hmem⟩ := List.mem_flatMap.mp ha
            exact resolve_relation_names sf nm [u, none] true rel hmem
          · unfold TasksSerializer.expand_cross_dependencies at hb'
            obtain ⟨dep, -, hmem⟩ := List.mem_flatMap.mp hb'
            exact resolve_relation_names sf dep.name _ true rel hmem
        · exact Or.inl (hex2 rel h2)

/-- **C4** (witness): the amended theorem applied to the dangling-endpoint
run: the entry `{t1_end, n1}` of `t2`'s materialized requires is accounted
for by the second disjunct — it is the `_end` endpoint of the origin of
`t1_start`, which is placed on `n1`. -/
theorem claim_C4_witness :
    (∃ recs', alGet (TasksSerializer.output c4_run) (some "n1") =
        some recs' ∧ ∃ ft' ∈ recs', ft'.id = "t1_end") ∨
    (∃ recs', alGet (TasksSerializer.output c4_run) (some "n1") =
        some recs' ∧ ∃ ft' ∈ recs',
      ("t1_end" : String) = TaskProcessor.get_first_task_id
        (c4_run.task_processor.get_origin ft'.id) ∨
      ("t1_end" : String) = TaskProcessor.get_last_task_id
        (c4_run.task_processor.get_origin ft'.id)) := by
  have henv : Env.no_ex_records c4_env := by
    refine ⟨?_, ?_, ?_⟩
    · intro t r rec hrec
      unfold c4_env at hrec
      simp only [] at hrec
      by_cases h1 : t.id = "t1"
      · rw [if_pos h1] at hrec
        rcases List.mem_cons.mp hrec with hc | hc
        · rw [hc]; exact ⟨rfl, rfl⟩
        · rcases List.mem_cons.mp hc with hc2 | hc2
          · rw [hc2]; exact ⟨rfl, rfl⟩
          · simp at hc2
      · rw [if_neg h1] at hrec
        by_cases h2 : t.id = "t2"
        · rw [if_pos h2] at hrec
          rcases List.mem_cons.mp hrec with hc | hc
          · rw [hc]; exact ⟨rfl, rfl⟩
          · simp at hc
        · rw [if_neg h2] at hrec
          simp at hrec
    · intro rec hrec
      simp [c4_env] at hrec
    · intro rec hrec
      simp [c4_env] at hrec
  exact claim_C4 c4_env c4_nodes c4_tasks none c4_run henv rfl (some "n1")
    ((alGet (TasksSerializer.output c4_run) (some "n1")).getD []) rfl
    { id := "t2", type := "puppet",
      requires := [⟨"t1_end", some "n1"⟩], required_for := [] }
    (by decide) ⟨"t1_end", some "n1"⟩ (by decide)

/-- **C9** (witness): a group referencing the unknown id `ghost` makes the
expansion fail with `InvalidData ghost`, which the theorem traces back to
the missing mapping entry. -/
theorem claim_C9_witness :
    ∃ g ∈ [({ id := "g", type := "group", tasks := some ["ghost"] } :
        CTask)], "ghost" ∈ g.tasks.getD [] ∧
      alGet [("t1", c1_origin)] "ghost" = none :=
  (claim_C9 envEmpty).2.1
    [{ id := "g", type := "group", tasks := some ["ghost"] }]
    { nodes := [] } [("t1", c1_origin)] "ghost" rfl

/-- **C6**: during group expansion, a member task referenced by a group
is processed with a Null Resolver pre-filled with the group's resolved
node-id set and with skip computed as (group id rejected by the task
filter) AND NOT (member id accepted by the task filter); consequently a
member whose serializer resolves its selector through that resolver (the
Noop Serializer of stage/skipped members) is placed on the group's nodes,
its own role selector overridden. -/
theorem claim_C6 (env : Env) (s : TasksSerializer) (g : CTask)
    (sub_id : String) (sub : CTask) (m : List (String × CTask))
    (hg : g.tasks = some [sub_id])
    (hm : alGet m sub_id = some sub) :
    (TasksSerializer.expand_task_groups env s [g] m =
      match TasksSerializer.process_task env s sub
          (NullResolver (s.role_resolver (g.role.getD (.list [])) .all))
          ((!s.task_filter g.id) && !s.task_filter sub_id) with
      | .error e => .error e
      | .ok (s', sub') => .ok (s', alSet m sub_id sub')) ∧
    (∀ (s' : TasksSerializer) (sub' : CTask) (sel : Selector),
      (sub.type = "stage" ∨ sub.type = "skipped") →
      sub.groups.orElse (fun _ => sub.role) = some sel →
      TasksSerializer.process_task env s sub
        (NullResolver (s.role_resolver (g.role.getD (.list [])) .all))
        ((!s.task_filter g.id) && !s.task_filter sub_id) = .ok (s', sub') →
      ∀ u ∈ s.role_resolver (g.role.getD (.list [])) .all,
        sub.id ∈ TasksSerializer.bucket_keys s' u) := by
  constructor
  · unfold TasksSerializer.expand_task_groups
    unfold TasksSerializer.expand_group_members
    simp only [hg, Option.getD_some, hm]
    cases hpt : TasksSerializer.process_task env s sub
        (NullResolver (s.role_resolver (g.role.getD (.list [])) .all))
        ((!s.task_filter g.id) && !s.task_filter sub_id) with
    | error e => simp
    | ok p =>
        obtain ⟨s', sub'⟩ := p
        simp [TasksSerializer.expand_group_members,
          TasksSerializer.expand_task_groups]
  · intro s' sub' sel htype hsel hok u hu
    have hskip : ∀ sk, (TasksSerializer.popped_view sub sk).type =
        sub.type := fun sk => popped_view_type sub sk
    have htype2 : ∀ sk,
        (decide ((TasksSerializer.popped_view sub sk).type = "skipped") ||
         decide ((TasksSerializer.popped_view sub sk).type = "stage")) =
          true := by
      intro sk
      rw [hskip]
      rcases htype with h | h <;> simp [h]
    have hsel2 : ∀ sk,
        (TasksSerializer.popped_view sub sk).groups.orElse
          (fun _ => (TasksSerializer.popped_view sub sk).role) = some sel := by
      intro sk
      rw [popped_view_groups, popped_view_role]
      exact hsel
    have hser : ∀ sk,
        serializer_serialize env (TasksSerializer.popped_view sub sk)
          (NullResolver (s.role_resolver (g.role.getD (.list [])) .all)) =
        [make_noop_task (s.role_resolver (g.role.getD (.list [])) .all)
          (TasksSerializer.popped_view sub sk)] := by
      intro sk
      unfold serializer_serialize
      rw [if_pos (by exact htype2 sk)]
      unfold noop_uids
      rw [hsel2 sk]
      rfl
    unfold TasksSerializer.process_task at hok
    rw [hser] at hok
    cases hgate : TaskProcessor.ensure_task_based_deploy_allowed
        (TasksSerializer.popped_view sub
          ((!s.task_filter g.id) && !s.task_filter sub_id)) with
    | error e =>
        rw [show TaskProcessor.process_tasks s.task_processor
            (TasksSerializer.popped_view sub
              ((!s.task_filter g.id) && !s.task_filter sub_id))
            [make_noop_task (s.role_resolver (g.role.getD (.list [])) .all)
              (TasksSerializer.popped_view sub
                ((!s.task_filter g.id) && !s.task_filter sub_id))] =
            .error e from by
          simp [TaskProcessor.process_tasks, hgate]] at hok
        exact absurd hok (by simp)
    | ok uu =>
        rw [show TaskProcessor.process_tasks s.task_processor
            (TasksSerializer.popped_view sub
              ((!s.task_filter g.id) && !s.task_filter sub_id))
            [make_noop_task (s.role_resolver (g.role.getD (.list [])) .all)
              (TasksSerializer.popped_view sub
                ((!s.task_filter g.id) && !s.task_filter sub_id))] =
            .ok ([TaskProcessor.convert_record
                (make_noop_task
                  (s.role_resolver (g.role.getD (.list [])) .all)
                  (TasksSerializer.popped_view sub
                    ((!s.task_filter g.id) && !s.task_filter sub_id)))
                (TasksSerializer.popped_view sub
                  ((!s.task_filter g.id) && !s.task_filter sub_id))
                none none],
              TaskProcessor.record_origin s.task_processor
                (TasksSerializer.popped_view sub
                  ((!s.task_filter g.id) && !s.task_filter sub_id)).id
                (TasksSerializer.popped_view sub
                  ((!s.task_filter g.id) && !s.task_filter sub_id)).id)
            from by
          simp [TaskProcessor.process_tasks, hgate]] at hok
        simp only [Except.ok.injEq, Prod.mk.injEq] at hok
        obtain ⟨hs', -⟩ := hok
        rw [← hs']
        unfold TasksSerializer.bucket_keys
        simp only [List.foldl_cons, List.foldl_nil]
        have hid : (TaskProcessor.convert_record
            (make_noop_task (s.role_resolver (g.role.getD (.list [])) .all)
              (TasksSerializer.popped_view sub
                ((!s.task_filter g.id) && !s.task_filter sub_id)))
            (TasksSerializer.popped_view sub
              ((!s.task_filter g.id) && !s.task_filter sub_id))
            none none).id = sub.id := by
          rw [TaskProcessor.convert_record_id]
          simp [popped_view_id]
        have huids : (TaskProcessor.convert_record
            (make_noop_task (s.role_resolver (g.role.getD (.list [])) .all)
              (TasksSerializer.popped_view sub
                ((!s.task_filter g.id) && !s.task_filter sub_id)))
            (TasksSerializer.popped_view sub
              ((!s.task_filter g.id) && !s.task_filter sub_id))
            none none).uids =
            some (s.role_resolver (g.role.getD (.list [])) .all) := by
          rw [TaskProcessor.convert_record_uids]
          rfl
        rw [← hid]
        apply place_astute_task_key_present
        rw [huids]
        simpa using hu

/-- **C6** (witness): the theorem applied to the S4 scenario: the group's
controller node set overrides the member's own compute selector. -/
theorem claim_C6_witness :
    "t1" ∈ TasksSerializer.bucket_keys c6_out.1 (some "n1") :=
  (claim_C6 envEmpty c6_s0 c6_group "t1" c6_sub [("t1", c6_sub)] rfl
      rfl).2
    c6_out.1 c6_out.2 (.str "compute") (Or.inl rfl) rfl rfl (some "n1")
    (by decide)

/-- **C4** (counterexample): when the chain of `t1` spans two nodes
(`t1_start` on `n1`, `t1_end` on `n2`), resolving `t2`'s reference to
`t1` on `n1` emits the chain endpoint `{name: t1_end, node_id: n1}` —
but no record with id `t1_end` is placed in `n1`'s output bucket, so a
materialized entry does not name a record placed at its `node_id`. -/
theorem claim_C4_counterexample :
    TasksSerializer.serialize c4_env c4_nodes c4_tasks none = .ok c4_out ∧
    (∃ recs, alGet c4_out (some "n1") = some recs ∧
      ∃ ft ∈ recs, ft.id = "t2" ∧
        (⟨"t1_end", some "n1"⟩ : Rel) ∈ ft.requires) ∧
    (∀ recs, alGet c4_out (some "n1") = some recs →
      ∀ ft ∈ recs, ft.id ≠ "t1_end") := by
  refine ⟨rfl, ?_, ?_⟩
  · refine ⟨(alGet c4_out (some "n1")).getD [], rfl, ?_⟩
    decide
  · decide

/-- **C10** (counterexample): with `skip = true` the short-circuiting
`skip or task.pop('skipped', False)` never evaluates the pop, so
`process_task` returns the catalog task with its `skipped` key intact;
a later processing of that task with `skip = false` then observes the
original flag and computes effective skip `true`, not the `false` it
would compute if the flag were treated as absent/false. -/
theorem claim_C10_counterexample :
    (TasksSerializer.process_task envEmpty { nodes := [] } c10_task
        (NullResolver []) true).map (fun p => p.2.skipped) =
      .ok (some true) ∧
    TasksSerializer.effective_skip envEmpty c10_task false = true ∧
    TasksSerializer.effective_skip envEmpty
      { c10_task with skipped := none } false = false := by
  refine ⟨rfl, rfl, rfl⟩

/-- **C10** (amended): `process_task` removes the `skipped` key from the
input catalog task record only when its `skip` argument is false (leaving
the other fields unchanged; with `skip = true` the task is returned
untouched); consequently, a task object first processed with
`skip = false` is observed by any second processing with no `skipped` key,
whose effective skip is computed as if the task's own flag were false. -/
theorem claim_C10 (env : Env) (s : TasksSerializer) (task : CTask)
    (resolver : Resolver) (skip : Bool) (s₁ : TasksSerializer) (task₁ : CTask)
    (h : TasksSerializer.process_task env s task resolver skip =
      .ok (s₁, task₁)) :
    (skip = false → task₁ = { task with skipped := none }) ∧
    (skip = true → task₁ = task) ∧
    (skip = false → task₁.skipped = none ∧
      ∀ skip₂, TasksSerializer.effective_skip env task₁ skip₂ =
        (skip₂ || !(serializer_should_execute env task₁))) := by
  have htask : task₁ = TasksSerializer.popped_view task skip := by
    unfold TasksSerializer.process_task at h
    cases hpt : TaskProcessor.process_tasks s.task_processor
        (TasksSerializer.popped_view task skip)
        (serializer_serialize env (TasksSerializer.popped_view task skip)
          resolver) with
    | error e => rw [hpt] at h; exact absurd h (by simp)
    | ok p =>
        obtain ⟨astute_tasks, tp'⟩ := p
        rw [hpt] at h
        simp only [Except.ok.injEq, Prod.mk.injEq] at h
        exact h.2.symm
  refine ⟨?_, ?_, ?_⟩
  · intro hskip
    rw [htask, TasksSerializer.popped_view, hskip]
    simp
  · intro hskip
    rw [htask, TasksSerializer.popped_view, hskip]
    simp
  · intro hskip
    have hnone : task₁.skipped = none := by
      rw [htask, TasksSerializer.popped_view, hskip]
      simp
    refine ⟨hnone, ?_⟩
    intro skip₂
    unfold TasksSerializer.effective_skip
    have hview : TasksSerializer.popped_view task₁ skip₂ = task₁ := by
      unfold TasksSerializer.popped_view
      cases skip₂ with
      | true => simp
      | false => simp [CTask_update_skipped_none_self task₁ hnone]
    rw [hview, hnone]
    cases skip₂ <;> simp

/-- **C10** (witness): the amended theorem applied to a concrete task
processed with `skip = false`: the returned task lost its `skipped` key
and any second processing treats the flag as false. -/
theorem claim_C10_witness :
    ∃ p, TasksSerializer.process_task envEmpty { nodes := [] } c10_task
        (NullResolver []) false = .ok p ∧
      p.2 = { c10_task with skipped := none } ∧
      TasksSerializer.effective_skip envEmpty p.2 false = false := by
  refine ⟨({ nodes := [],
             task_processor := { origin_task_ids := [] },
             tasks_per_node := [] },
           { c10_task with skipped := none }), rfl, ?_, ?_⟩
  · exact (claim_C10 envEmpty { nodes := [] } c10_task (NullResolver []) false
      _ _ rfl).1 rfl
  · rfl

end TaskBasedDeployment
